import Mathlib

/-
Verification of the git-lint policy engine: a shallow embedding of the
result/rule contract, the branch-cleanup classifier, the fork-parent
resolver, the identity/remote/protocol/attribution/staleness/unpushed/
submodule rules, and the bracketed result-name convention, together with
theorems about the properties the engine is documented to have.

Strings from the Go source are modelled as lists of characters; the git
subprocess, the filesystem and the hosted API are modelled as explicit
oracle fields of per-rule environment structures, mirroring exactly the
calls the Go code makes.  Wall-clock times are integers (nanoseconds),
and time parsing is an oracle, since the engine only compares parsed
timestamps against thresholds.
-/

namespace GitLint

/-- Go strings are modelled as lists of characters. -/
abbrev Str := List Char

/-- strings.Contains: does hay contain needle as a contiguous substring. -/
def hasSubstr (hay needle : Str) : Bool :=
  hay.tails.any (fun t => needle.isPrefixOf t)

/-- Split a string at the first occurrence of c: the prefix before the first
occurrence and, when c occurs, the remainder after it. -/
def breakOn (c : Char) : Str → Str × Option Str
  | [] => ([], none)
  | x :: xs =>
    if x = c then ([], some xs)
    else
      let r := breakOn c xs
      (x :: r.1, r.2)

/-- strings.Split on a single-character separator. -/
def splitOnChar (c : Char) : Str → List Str
  | [] => [[]]
  | x :: xs =>
    let r := splitOnChar c xs
    if x = c then [] :: r
    else
      match r with
      | [] => [[x]]
      | h :: t => (x :: h) :: t

/-- strings.SplitN with a positive bound on the number of parts. -/
def splitNChar (c : Char) : Nat → Str → List Str
  | 0, _ => []
  | 1, s => [s]
  | n + 2, s =>
    match breakOn c s with
    | (a, none) => [a]
    | (a, some rest) => a :: splitNChar c (n + 1) rest

/-- ASCII whitespace, as relevant to the git outputs consumed here. -/
def isSpaceChar (c : Char) : Bool :=
  c == ' ' || c == '\t' || c == '\n' || c == '\r'

/-- Split at every character satisfying p (empty segments kept). -/
def splitOnP (p : Char → Bool) : Str → List Str
  | [] => [[]]
  | x :: xs =>
    let r := splitOnP p xs
    if p x then [] :: r
    else
      match r with
      | [] => [[x]]
      | h :: t => (x :: h) :: t

/-- strings.Fields: maximal runs of non-whitespace characters. -/
def fields (s : Str) : List Str :=
  (splitOnP isSpaceChar s).filter (fun x => decide (x ≠ []))

/-- strings.TrimSuffix. -/
def trimSuffix (suf s : Str) : Str :=
  if suf.isSuffixOf s then s.take (s.length - suf.length) else s

/-- splitResultName separates a name such as staleness-unpushed[bats] into
the rule part before the first opening bracket and the entity between the
bracket and the final character. -/
def splitResultName (name : Str) : Str × Str :=
  match breakOn '[' name with
  | (_, none) => (name, [])
  | (pre, some rest) => (pre, rest.dropLast)

/-- The bracketed result-name convention: rule[entity]. -/
def mkName (rule entity : Str) : Str := rule ++ '[' :: (entity ++ [']'])

/-- The entity recovered from a result name. -/
def entityOf (name : Str) : Str := (splitResultName name).2

/-- The rule part recovered from a result name. -/
def ruleOf (name : Str) : Str := (splitResultName name).1

/-- The four result statuses of the engine. -/
inductive Status where
  | ok | warn | fail | fix
deriving DecidableEq

/-- A single check result: rule name (optionally with bracketed entity),
status, message, detail lines, and whether an automatic fix exists. -/
structure Result where
  name : Str
  status : Status
  message : Str
  details : List Str
  fixable : Bool
deriving DecidableEq

/-- Render an integer in decimal, for embedded messages. -/
def intToStr (n : Int) : Str := (toString n).data

/-- Render a natural number in decimal, for embedded messages. -/
def natToStr (n : Nat) : Str := (toString n).data

/-- The %q verb: the value between double quotes (Go escaping elided). -/
def quoted (s : Str) : Str := '"' :: (s ++ ['"'])

/-- time.Duration rendering: whole days as Nd; sub-day durations are shown
by Go as a rounded clock string, abstracted here as a whole-hour count. -/
def formatDuration (d : Int) : Str :=
  let days := d / 86400000000000
  if days > 0 then intToStr days ++ "d".data
  else intToStr (d / 3600000000000) ++ "h".data

/-- identity section of the JSON configuration. -/
structure IdentityConfig where
  name : Str
  workEmail : Str
  personalEmail : Str

/-- thresholds section of the JSON configuration; durations in nanoseconds. -/
structure ThresholdsConfig where
  stashMaxAge : Int
  stashMaxCount : Int
  uncommittedMaxAge : Int
  unpushedMaxAge : Int

/-- The loaded configuration. -/
structure Config where
  workOrgs : List Str
  protocol : Str
  identity : IdentityConfig
  thresholds : ThresholdsConfig

/-! ### Fork-parent resolution (Repo.ForkParent and friends) -/

/-- The sentinel cached for a confirmed non-fork. -/
def sNone : Str := "none".data

/-- The HTTPS GitHub URL shape. -/
def sHttpsPfx : Str := "https://github.com/".data

/-- The SCP-like SSH GitHub URL shape. -/
def sSshPfx : Str := "git@github.com:".data

/-- The .git suffix trimmed from repository names. -/
def sDotGit : Str := ".git".data

/-- The name of the origin remote. -/
def sOrigin : Str := "origin".data

/-- The owner/repo part of parseGitHubRepo after the host prefix. -/
def parseGitHubPath (path : Str) : Str × Str :=
  let parts := splitNChar '/' 3 path
  if parts.length < 2 then ([], [])
  else (parts.getD 0 [], trimSuffix sDotGit (parts.getD 1 []))

/-- parseGitHubRepo: extract owner and repo from a GitHub URL, or a pair of
empty strings when the URL is not a GitHub URL. -/
def parseGitHubRepo (url : Str) : Str × Str :=
  if sHttpsPfx.isPrefixOf url then
    parseGitHubPath (url.drop sHttpsPfx.length)
  else if sSshPfx.isPrefixOf url then
    parseGitHubPath (url.drop sSshPfx.length)
  else ([], [])

/-- The inputs of one fork-parent resolution: origin's URL and the outcome
the hosted API would report for this repository (none models any transport,
authentication or not-found failure; an empty parent means confirmed
non-fork). -/
structure ForkEnv where
  originURL : Str
  api : Option Str

/-- One call of Repo.ForkParent: from the cached configuration value
(empty = unset) produce the resolved parent, the new cached value and
whether an external API call was issued. -/
def forkParent1 (env : ForkEnv) (cache : Str) : Str × Str × Bool :=
  if cache = sNone then ([], cache, false)
  else if cache ≠ [] then (cache, cache, false)
  else if (parseGitHubRepo env.originURL).1 = [] then ([], cache, false)
  else
    match env.api with
    | none => ([], cache, true)
    | some parent =>
      if parent = [] then ([], sNone, true)
      else (parent, parent, true)

/-- A sequence of n fork-parent resolutions within one process invocation,
threading the persisted cache; returns the final cache and the total number
of external API calls issued. -/
def runForkCalls (env : ForkEnv) : Nat → Str → Str × Nat
  | 0, cache => (cache, 0)
  | n + 1, cache =>
    let step := forkParent1 env cache
    let rest := runForkCalls env n step.2.1
    (rest.1, (if step.2.2 then 1 else 0) + rest.2)

/-! ### Repository state as read by the remote-topology rule -/

/-- The repository facts the remote rule reads: remote names, their URLs as
stored in local configuration, arbitrary local configuration values, the
work classification, the configured work organizations, the main branch
name (empty when neither main nor master exists), and the fork API
outcome. -/
structure RepoSt where
  remotes : List Str
  remoteURL : Str → Str
  gitCfg : Str → Str
  work : Bool
  workOrgs : List Str
  mainBranch : Str
  api : Option Str

/-- The config key caching the fork parent. -/
def kGhParent : Str := "remote.origin.gh-parent".data

/-- Repo.ForkParent as a read of the current repository state. -/
def forkParentVal (st : RepoSt) : Str :=
  (forkParent1 ⟨st.remoteURL sOrigin, st.api⟩ (st.gitCfg kGhParent)).1

/-- Repo.ForkParentRemote: the first non-origin remote whose GitHub
owner/repo matches origin's fork parent, or empty. -/
def forkParentRemoteGo (st : RepoSt) : Str :=
  let parent := forkParentVal st
  if parent = [] then []
  else
    match st.remotes.find? (fun name =>
      decide (name ≠ sOrigin) &&
      (let o := parseGitHubRepo (st.remoteURL name)
       decide (o.1 ≠ []) && decide (o.1 ++ '/' :: o.2 = parent))) with
    | some n => n
    | none => []

/-- workOrgInURL: the first configured work org appearing in the URL in a
github.com path, or empty. -/
def workOrgInURL (url : Str) (orgs : List Str) : Str :=
  match orgs.find? (fun org =>
    hasSubstr url ("github.com/".data ++ org ++ ['/']) ||
    hasSubstr url ("github.com:".data ++ org ++ ['/'])) with
  | some o => o
  | none => []

/-- upstreamFor: the fork parent remote when resolved, else the first
non-origin remote whose URL matches a work org. -/
def upstreamFor (st : RepoSt) : Str :=
  let p := forkParentRemoteGo st
  if p ≠ [] then p
  else
    match st.remotes.find? (fun name =>
      decide (name ≠ sOrigin) &&
      decide (workOrgInURL (st.remoteURL name) st.workOrgs ≠ [])) with
    | some n => n
    | none => []

/-- Name of the gh-resolved result. -/
def nGhResolved : Str := "remote/gh-resolved".data

/-- Name of the origin-fork result. -/
def nRemoteOrigin : Str := "remote/origin".data

/-- Name of the tracking result. -/
def nRemoteTracking : Str := "remote/tracking".data

/-- Name of the push-guard result. -/
def nRemotePushGuard : Str := "remote/push-guard".data

/-- The config key remote.NAME.gh-resolved. -/
def kResolved (name : Str) : Str :=
  "remote.".data ++ name ++ ".gh-resolved".data

/-- The config key branch.B.remote. -/
def kBranchRemote (b : Str) : Str := "branch.".data ++ b ++ ".remote".data

/-- The config key branch.B.merge. -/
def kBranchMerge (b : Str) : Str := "branch.".data ++ b ++ ".merge".data

/-- The config key branch.B.pushRemote. -/
def kBranchPush (b : Str) : Str := "branch.".data ++ b ++ ".pushRemote".data

/-- The gh-resolved value the rules require. -/
def sBase : Str := "base".data

/-- The pushRemote guard value. -/
def sNoPush : Str := "no_push".data

/-- The refs/heads/ prefix written by the tracking fix. -/
def sRefsHeads : Str := "refs/heads/".data

/-- A config write: the state read back after `git config KEY VALUE` (an
unset is a write of the empty value). -/
def setCfg (g : Str → Str) (k v : Str) : Str → Str :=
  fun x => if x = k then v else g x

/-- The gh-resolved result for the fork parent remote. -/
def ghResolvedMain (st : RepoSt) (parentRemote : Str) : Result :=
  if st.gitCfg (kResolved parentRemote) = sBase then
    ⟨nGhResolved, Status.ok,
      parentRemote ++ " gh-resolved is base".data, [], false⟩
  else
    ⟨nGhResolved, Status.fail,
      parentRemote ++ " gh-resolved is ".data ++
        quoted (st.gitCfg (kResolved parentRemote)) ++
        ", should be base".data, [], true⟩

/-- The stale gh-resolved result for one non-parent remote, when its
gh-resolved key is set at all. -/
def ghResolvedStale (st : RepoSt) (parentRemote name : Str) :
    Option Result :=
  if name = parentRemote then none
  else if st.gitCfg (kResolved name) ≠ [] then
    some ⟨mkName nGhResolved name, Status.fail,
      name ++ " has stale gh-resolved=".data ++
        quoted (st.gitCfg (kResolved name)), [], true⟩
  else none

/-- The gh-resolved results, emitted only when origin's fork parent
matches a local remote. -/
def remoteCheckGh (st : RepoSt) : List Result :=
  if forkParentRemoteGo st = [] then []
  else
    ghResolvedMain st (forkParentRemoteGo st) ::
      st.remotes.filterMap (ghResolvedStale st (forkParentRemoteGo st))

/-- The origin-points-to-personal-fork result. -/
def originResult (st : RepoSt) : Result :=
  if workOrgInURL (st.remoteURL sOrigin) st.workOrgs ≠ [] then
    ⟨nRemoteOrigin, Status.fail,
      "origin points to work org ".data ++
        workOrgInURL (st.remoteURL sOrigin) st.workOrgs ++
        " (expected personal fork)".data, [], false⟩
  else
    ⟨nRemoteOrigin, Status.ok,
      "origin points to personal fork".data, [], false⟩

/-- The main-branch tracking result. -/
def trackingResult (st : RepoSt) : Result :=
  if upstreamFor st = [] then
    ⟨nRemoteTracking, Status.ok,
      st.mainBranch ++ " tracks ".data ++
        st.gitCfg (kBranchRemote st.mainBranch), [], false⟩
  else if st.gitCfg (kBranchRemote st.mainBranch) = upstreamFor st then
    ⟨nRemoteTracking, Status.ok,
      st.mainBranch ++ " tracks ".data ++
        st.gitCfg (kBranchRemote st.mainBranch), [], false⟩
  else
    ⟨nRemoteTracking, Status.fail,
      st.mainBranch ++ " tracks ".data ++
        quoted (st.gitCfg (kBranchRemote st.mainBranch)) ++
        ", should track ".data ++ quoted (upstreamFor st), [], true⟩

/-- The main-branch push-guard result. -/
def pushGuardResult (st : RepoSt) : Result :=
  if st.gitCfg (kBranchPush st.mainBranch) = sNoPush then
    ⟨nRemotePushGuard, Status.ok,
      st.mainBranch ++ " pushRemote is no_push".data, [], false⟩
  else
    ⟨nRemotePushGuard, Status.fail,
      st.mainBranch ++ " pushRemote is ".data ++
        quoted (st.gitCfg (kBranchPush st.mainBranch)) ++
        ", should be no_push".data, [], true⟩

/-- RemoteCheck.Check: gh-resolved hygiene for forks, then (work repos
only) origin-fork, tracking and push-guard rules.  Applies only with at
least two remotes. -/
def remoteCheck (st : RepoSt) : List Result :=
  if st.remotes.length < 2 then []
  else if ¬ st.work then remoteCheckGh st
  else
    remoteCheckGh st ++ [originResult st] ++
      (if st.mainBranch ≠ [] then
        [trackingResult st, pushGuardResult st]
      else [])

/-- The remote whose gh-resolved key the gh-resolved fix writes: the fork
parent remote, falling back to main's tracking remote. -/
def ghResolvedTarget (st : RepoSt) : Str :=
  if forkParentRemoteGo st = [] ∧ st.mainBranch ≠ [] then
    st.gitCfg (kBranchRemote st.mainBranch)
  else forkParentRemoteGo st

/-- RemoteCheck.Fix: remediate tracking, push-guard and gh-resolved
failures; setOk and unsetOk model success of the config writes, keyed by
config key.  Config writes are modelled as not feeding back into reads of
the same Fix pass (result values are unaffected for deterministic
oracles). -/
def remoteFixEntry (st : RepoSt) (setOk unsetOk : Str → Bool)
    (r : Result) : Result :=
  if r.status ≠ Status.fail ∨ ¬ r.fixable then r
  else if r.name = nRemoteTracking ∧ st.mainBranch ≠ [] then
    if upstreamFor st = [] then r
    else if setOk (kBranchRemote st.mainBranch) &&
            setOk (kBranchMerge st.mainBranch) then
      ⟨r.name, Status.fix,
        "set ".data ++ st.mainBranch ++ " to track ".data ++
          upstreamFor st ++ '/' :: st.mainBranch, [], false⟩
    else r
  else if r.name = nRemotePushGuard ∧ st.mainBranch ≠ [] then
    if setOk (kBranchPush st.mainBranch) then
      ⟨r.name, Status.fix,
        "set ".data ++ st.mainBranch ++ " pushRemote to no_push".data,
        [], false⟩
    else r
  else if r.name = nGhResolved then
    if ghResolvedTarget st = [] ∨ ghResolvedTarget st = sOrigin then r
    else if setOk (kResolved (ghResolvedTarget st)) then
      ⟨r.name, Status.fix,
        "set ".data ++ ghResolvedTarget st ++ " gh-resolved to base".data,
        [], false⟩
    else r
  else if (nGhResolved ++ ['[']).isPrefixOf r.name then
    if unsetOk (kResolved ((r.name.drop (nGhResolved.length + 1)).dropLast))
        then
      ⟨r.name, Status.fix,
        "removed gh-resolved from ".data ++
          (r.name.drop (nGhResolved.length + 1)).dropLast, [], false⟩
    else r
  else r

/-- RemoteCheck.Fix over a result list. -/
def remoteFix (st : RepoSt) (setOk unsetOk : Str → Bool)
    (results : List Result) : List Result :=
  results.map (remoteFixEntry st setOk unsetOk)

/-- Whether the remediation command the remote Fix runs for a given entry
succeeds: the tracking fix needs both branch.B.remote and branch.B.merge
writes, the push-guard fix the branch.B.pushRemote write, the gh-resolved
fix the remote.R.gh-resolved write, and the stale gh-resolved fix the
unset of the named remote's key. -/
def remoteFixSuccess (st : RepoSt) (setOk unsetOk : Str → Bool)
    (r : Result) : Bool :=
  if r.name = nRemoteTracking ∧ st.mainBranch ≠ [] then
    setOk (kBranchRemote st.mainBranch) && setOk (kBranchMerge st.mainBranch)
  else if r.name = nRemotePushGuard ∧ st.mainBranch ≠ [] then
    setOk (kBranchPush st.mainBranch)
  else if r.name = nGhResolved then
    setOk (kResolved (ghResolvedTarget st))
  else if (nGhResolved ++ ['[']).isPrefixOf r.name then
    unsetOk (kResolved ((r.name.drop (nGhResolved.length + 1)).dropLast))
  else false

/-! ### Identity rule -/

/-- The user-facing git configuration the identity rule touches: the
user.name and user.email values in the repository-local store and the
values any outer (global, system, environment) source would supply. -/
structure IdSt where
  localName : Option Str
  globalName : Option Str
  localEmail : Option Str
  globalEmail : Option Str

/-- The effective configuration value: the local store when set, otherwise
the outer sources, otherwise empty. -/
def effectiveCfg (loc glob : Option Str) : Str := loc.getD (glob.getD [])

/-- Name of the user.name result. -/
def nIdentityName : Str := "identity/name".data

/-- Name of the user.email result. -/
def nIdentityEmail : Str := "identity/email".data

/-- The user.name config key. -/
def kUserName : Str := "user.name".data

/-- The user.email config key. -/
def kUserEmail : Str := "user.email".data

/-- IdentityCheck.Check: user.name against the configured name (effective
value), and user.email against the work email in local config for work
repos, or either configured email from any source for personal repos. -/
def identityCheck (work : Bool) (idc : IdentityConfig) (st : IdSt) :
    List Result :=
  let nameRes :=
    let name := effectiveCfg st.localName st.globalName
    if name = idc.name then
      (⟨nIdentityName, Status.ok, name, [], false⟩ : Result)
    else
      ⟨nIdentityName, Status.fail,
        "got ".data ++ quoted name ++ ", want ".data ++ quoted idc.name,
        [], true⟩
  let emailRes :=
    if work then
      let localEmail := st.localEmail.getD []
      if localEmail = idc.workEmail then
        (⟨nIdentityEmail, Status.ok, localEmail, [], false⟩ : Result)
      else
        ⟨nIdentityEmail, Status.fail,
          "got ".data ++ quoted localEmail ++ ", want ".data ++
            quoted idc.workEmail, [], true⟩
    else
      let email := effectiveCfg st.localEmail st.globalEmail
      if email = idc.workEmail ∨ email = idc.personalEmail then
        (⟨nIdentityEmail, Status.ok, email, [], false⟩ : Result)
      else
        ⟨nIdentityEmail, Status.fail,
          "got ".data ++ quoted email ++ ", want ".data ++
            quoted idc.workEmail ++ " or ".data ++ quoted idc.personalEmail,
          [], true⟩
  [nameRes, emailRes]

/-- IdentityCheck.Fix: set user.name or user.email in the local store for
failed, fixable entries; setOk models success of each config write, keyed
by config key.  Returns the updated local configuration and the rewritten
result list. -/
def identityFix (work : Bool) (idc : IdentityConfig) (setOk : Str → Bool) :
    IdSt → List Result → IdSt × List Result
  | st, [] => (st, [])
  | st, r :: rest =>
    if r.status ≠ Status.fail ∨ ¬ r.fixable then
      let next := identityFix work idc setOk st rest
      (next.1, r :: next.2)
    else if r.name = nIdentityName then
      if setOk kUserName then
        let st1 := { st with localName := some idc.name }
        let next := identityFix work idc setOk st1 rest
        (next.1,
          ⟨r.name, Status.fix, "set to ".data ++ idc.name, [], false⟩ ::
            next.2)
      else
        let next := identityFix work idc setOk st rest
        (next.1, r :: next.2)
    else if r.name = nIdentityEmail then
      let wantEmail := if work then idc.workEmail else idc.personalEmail
      if setOk kUserEmail then
        let st1 := { st with localEmail := some wantEmail }
        let next := identityFix work idc setOk st1 rest
        (next.1,
          ⟨r.name, Status.fix, "set to ".data ++ wantEmail, [], false⟩ ::
            next.2)
      else
        let next := identityFix work idc setOk st rest
        (next.1, r :: next.2)
    else
      let next := identityFix work idc setOk st rest
      (next.1, r :: next.2)

/-! ### Protocol rule (Fix) -/

/-- Name prefix of protocol results. -/
def nRemoteProtocol : Str := "remote/protocol".data

/-- urlProtocol: https for https URLs, ssh for ssh or SCP-like URLs. -/
def urlProtocol (url : Str) : Str :=
  if "https://".data.isPrefixOf url then "https".data
  else if "ssh://".data.isPrefixOf url || url.contains '@' then "ssh".data
  else []

/-- convertGitHubURL: convert a GitHub URL between ssh and https shapes;
empty when not a GitHub URL of the other shape. -/
def convertGitHubURL (url target : Str) : Str :=
  if target = "ssh".data then
    if sHttpsPfx.isPrefixOf url then sSshPfx ++ url.drop sHttpsPfx.length
    else []
  else if target = "https".data then
    if sSshPfx.isPrefixOf url then sHttpsPfx ++ url.drop sSshPfx.length
    else []
  else []

/-- The repository facts the protocol rule reads: the configured preferred
protocol, the remote names, their URLs, and success of each set-url
command (keyed by remote name). -/
structure ProtoEnv where
  protocol : Str
  remotes : List Str
  remoteURL : Str → Str
  setURLOk : Str → Bool

/-- The protocol result for one remote: nothing when the URL already uses
the wanted protocol, a fixable FAIL when it is a convertible GitHub URL,
a WARN otherwise. -/
def protocolRemote (env : ProtoEnv) (name : Str) : Option Result :=
  if urlProtocol (env.remoteURL name) = env.protocol then none
  else if convertGitHubURL (env.remoteURL name) env.protocol ≠ [] then
    some ⟨mkName nRemoteProtocol name, Status.fail,
      "uses ".data ++ urlProtocol (env.remoteURL name) ++ ", want ".data ++
        env.protocol ++ " (".data ++ env.remoteURL name ++ [')'],
      [], true⟩
  else
    some ⟨mkName nRemoteProtocol name, Status.warn,
      "uses ".data ++ urlProtocol (env.remoteURL name) ++ ", want ".data ++
        env.protocol ++ " (".data ++ env.remoteURL name ++ [')'],
      [], false⟩

/-- ProtocolCheck.Check: every remote's URL protocol against the
configured preference; silent without a preference or without remotes,
one OK placeholder when every remote complies. -/
def protocolCheck (env : ProtoEnv) : List Result :=
  if env.protocol = [] then []
  else if env.remotes = [] then []
  else if env.remotes.filterMap (protocolRemote env) = [] then
    [⟨nRemoteProtocol, Status.ok,
      "all remotes use ".data ++ env.protocol, [], false⟩]
  else env.remotes.filterMap (protocolRemote env)

/-- One entry of ProtocolCheck.Fix: rewrite a convertible GitHub remote to
the preferred protocol; the remote name is recovered by slicing the
fixed-width result name prefix. -/
def protocolFixEntry (env : ProtoEnv) (r : Result) : Result :=
  if r.status ≠ Status.fail ∨ ¬ r.fixable then r
  else if convertGitHubURL
      (env.remoteURL ((r.name.drop (nRemoteProtocol.length + 1)).dropLast))
      env.protocol = [] then r
  else if env.setURLOk ((r.name.drop (nRemoteProtocol.length + 1)).dropLast)
      then
    ⟨r.name, Status.fix,
      "set to ".data ++
        convertGitHubURL
          (env.remoteURL
            ((r.name.drop (nRemoteProtocol.length + 1)).dropLast))
          env.protocol,
      [], false⟩
  else r

/-- ProtocolCheck.Fix over a result list. -/
def protocolFix (env : ProtoEnv) (results : List Result) : List Result :=
  results.map (protocolFixEntry env)

/-! ### Attribution rule -/

/-- Name of the attribution settings result. -/
def nClaudeAttribution : Str := "claude/attribution".data

/-- Name of the exclude-patterns result. -/
def nClaudeExclude : Str := "claude/exclude".data

/-- The settings file path relative to the worktree. -/
def settingsRelPathS : Str := ".claude/settings.local.json".data

/-- The patterns checkExclude requires in .git/info/exclude. -/
def claudeExcludePatternsS : List Str := ["CLAUDE.md".data, ".claude/".data]

/-- What the rule observes about .claude/settings.local.json: absent,
unreadable, JSON-invalid, parsed without an attribution key, with an
attribution value that does not parse, or with a parsed attribution
(commit and pr strings). -/
inductive AttrObs where
  | missing : AttrObs
  | unreadable : Str → AttrObs
  | unparsable : Str → AttrObs
  | noKey : AttrObs
  | badAttr : Str → AttrObs
  | attr : Str → Str → AttrObs

/-- The repository facts the attribution rule reads: whether this is a
work repo, the settings-file observation, and the lines of
.git/info/exclude (empty when unreadable). -/
structure AttrEnv where
  work : Bool
  settings : AttrObs
  excludeLines : List Str

/-- strings.Join with a separator. -/
def joinSep (sep : Str) : List Str → Str
  | [] => []
  | [x] => x
  | x :: xs => x ++ sep ++ joinSep sep xs

/-- The claude/attribution result for a settings observation: read and
parse failures are WARN (file-missing aside), a missing file or key and a
non-empty attribution are fixable FAIL, an empty attribution OK. -/
def attributionResult (obs : AttrObs) : Result :=
  match obs with
  | AttrObs.missing =>
    ⟨nClaudeAttribution, Status.fail, settingsRelPathS ++ " missing".data,
      [], true⟩
  | AttrObs.unreadable e =>
    ⟨nClaudeAttribution, Status.warn,
      "cannot read ".data ++ settingsRelPathS ++ ": ".data ++ e, [], false⟩
  | AttrObs.unparsable e =>
    ⟨nClaudeAttribution, Status.warn,
      "cannot parse ".data ++ settingsRelPathS ++ ": ".data ++ e, [], false⟩
  | AttrObs.noKey =>
    ⟨nClaudeAttribution, Status.fail, "attribution not configured".data,
      [], true⟩
  | AttrObs.badAttr e =>
    ⟨nClaudeAttribution, Status.warn,
      "cannot parse attribution: ".data ++ e, [], false⟩
  | AttrObs.attr c p =>
    if c ≠ [] ∨ p ≠ [] then
      ⟨nClaudeAttribution, Status.fail,
        "attribution not empty (commit=".data ++ quoted c ++
          ", pr=".data ++ quoted p ++ [')'], [], true⟩
    else
      ⟨nClaudeAttribution, Status.ok, "attribution is empty".data,
        [], false⟩

/-- The claude/exclude result: fixable FAIL naming the required patterns
absent from .git/info/exclude, OK when none are missing. -/
def excludeResult (lines : List Str) : Result :=
  if claudeExcludePatternsS.filter (fun p => decide (p ∉ lines)) ≠ [] then
    ⟨nClaudeExclude, Status.fail,
      ".git/info/exclude missing: ".data ++
        joinSep (", ".data)
          (claudeExcludePatternsS.filter (fun p => decide (p ∉ lines))),
      [], true⟩
  else
    ⟨nClaudeExclude, Status.ok, "claude files excluded".data, [], false⟩

/-- AttributionCheck.Check: nothing for personal repos, otherwise the
settings-attribution result followed by the exclude-patterns result. -/
def attributionCheck (env : AttrEnv) : List Result :=
  if ¬ env.work then []
  else [attributionResult env.settings, excludeResult env.excludeLines]

/-- One entry of AttributionCheck.Fix: fixable entries are dispatched on
the result name — claude/attribution runs ensureAttribution (success
modelled by ensureOk), claude/exclude runs ensureExcludePatterns (success
modelled by excludeOk) — and any other name, or a failed command, passes
the entry through. -/
def attributionFixEntry (ensureOk excludeOk : Bool) (r : Result) : Result :=
  if ¬ r.fixable then r
  else if r.name = nClaudeAttribution then
    if ensureOk then
      ⟨r.name, Status.fix,
        "set empty attribution in .claude/settings.local.json".data,
        [], false⟩
    else r
  else if r.name = nClaudeExclude then
    if excludeOk then
      ⟨r.name, Status.fix,
        "added claude patterns to .git/info/exclude".data, [], false⟩
    else r
  else r

/-- AttributionCheck.Fix over a result list. -/
def attributionFix (ensureOk excludeOk : Bool) (results : List Result) :
    List Result :=
  results.map (attributionFixEntry ensureOk excludeOk)

/-! ### Staleness rule -/

/-- Name of the stash-age result. -/
def nStashAge : Str := "staleness/stash-age".data

/-- Name of the stash-count result. -/
def nStashCount : Str := "staleness/stash-count".data

/-- Name of the uncommitted-changes result. -/
def nUncommitted : Str := "staleness/uncommitted".data

/-- Name of the untracked-files result. -/
def nUntracked : Str := "staleness/untracked".data

/-- The untracked marker of git status porcelain lines. -/
def sUntrackedPfx : Str := "?? ".data

/-- The repository observations the staleness rule reads: raw stash-list
output (none models a failed subprocess), raw status porcelain, the last
commit timestamp line (none models a failed subprocess), a timestamp
parser, and the current time in nanoseconds. -/
structure StaleEnv where
  stashOut : Option Str
  porcelain : Str
  lastCommit : Option Str
  parseT : Str → Option Int
  now : Int

/-- stashEntries: parse each stash-list line into its timestamp and the
display text after the 26-character date prefix; unparsable lines are
skipped; a failed subprocess yields none. -/
def stashEntries (env : StaleEnv) : Option (List (Int × Str)) :=
  match env.stashOut with
  | none => none
  | some out =>
    if out = [] then some []
    else
      some ((splitOnChar '\n' out).filterMap (fun line =>
        if line.length < 26 then none
        else
          match env.parseT (line.take 25) with
          | none => none
          | some t => some (t, line.drop 26)))

/-- uncommittedAge: time since the last commit, zero when it cannot be
determined. -/
def uncommittedAge (env : StaleEnv) : Int :=
  match env.lastCommit with
  | none => 0
  | some out =>
    if out = [] then 0
    else
      match env.parseT out with
      | none => 0
      | some t => env.now - t

/-- StalenessCheck.Check: stash age and count against their thresholds
(skipped entirely when the stash listing fails), then uncommitted and
untracked working-tree state aged by the last-commit approximation. -/
def stalenessCheck (cfg : Config) (env : StaleEnv) : List Result :=
  let maxAge := cfg.thresholds.stashMaxAge
  let maxCount := cfg.thresholds.stashMaxCount
  let stashResults :=
    match stashEntries env with
    | none => []
    | some entries =>
      let oldDetails :=
        (entries.filter (fun e => decide (env.now - e.1 > maxAge))).map
          (fun e => e.2)
      (if oldDetails.length > 0 then
         [⟨nStashAge, Status.warn,
           natToStr oldDetails.length ++ " stash entries older than ".data ++
             formatDuration maxAge, oldDetails, false⟩]
       else
         [⟨nStashAge, Status.ok, "no stale stash entries".data, [], false⟩])
      ++ (if (entries.length : Int) > maxCount then
            [⟨nStashCount, Status.warn,
              natToStr entries.length ++ " entries (max ".data ++
                intToStr maxCount ++ [')'],
              entries.map (fun e => e.2), false⟩]
          else
            [⟨nStashCount, Status.ok,
              natToStr entries.length ++ " entries".data, [], false⟩])
  let maxUncommitted := cfg.thresholds.uncommittedMaxAge
  let lines := (splitOnChar '\n' env.porcelain).filter (fun l => decide (l ≠ []))
  let untrackedLines := lines.filter (fun l => sUntrackedPfx.isPrefixOf l)
  let uncommittedLines := lines.filter (fun l => ! sUntrackedPfx.isPrefixOf l)
  let age := uncommittedAge env
  let stale := decide (age > maxUncommitted)
  stashResults
  ++ (if uncommittedLines ≠ [] then
        if stale then
          [⟨nUncommitted, Status.warn,
            "uncommitted changes for ".data ++ formatDuration age ++
              " (max ".data ++ formatDuration maxUncommitted ++ [')'],
            uncommittedLines, false⟩]
        else
          [⟨nUncommitted, Status.ok,
            "uncommitted changes are recent".data, [], false⟩]
      else [])
  ++ (if untrackedLines ≠ [] then
        if stale then
          [⟨nUntracked, Status.warn,
            natToStr untrackedLines.length ++ " untracked files for ".data ++
              formatDuration age ++ " (max ".data ++
              formatDuration maxUncommitted ++ [')'],
            untrackedLines, false⟩]
        else
          [⟨nUntracked, Status.ok,
            "untracked files are recent".data, [], false⟩]
      else [])
  ++ (if uncommittedLines = [] ∧ untrackedLines = [] then
        [⟨nUncommitted, Status.ok, "working tree clean".data, [], false⟩]
      else [])

/-- StalenessCheck.Fix: warn-only, returns its input unchanged. -/
def stalenessFixRun (results : List Result) : List Result := results

/-! ### Unpushed rule -/

/-- Name of the unpushed result. -/
def nUnpushed : Str := "staleness/unpushed".data

/-- The pull-request merge-ref convention prefix. -/
def sRefsPull : Str := "refs/pull/".data

/-- The repository observations the unpushed rule reads: the raw local
branch listing (none models a failed subprocess), the per-branch remote
and merge configuration, the per-branch tip author, the upstream log
(none models a failed subprocess, triggering the no-remotes fallback),
the fallback log, a timestamp parser and the current time. -/
structure UnpushedEnv where
  forEachRef : Option Str
  remoteOf : Str → Str
  mergeOf : Str → Str
  authorOf : Str → Str
  logUpstream : Str → Option Str
  logNoRemotes : Str → Str
  parseT : Str → Option Int
  now : Int

/-- localBranches: the branch names, empty when the listing fails or is
empty. -/
def localBranches (env : UnpushedEnv) : List Str :=
  match env.forEachRef with
  | none => []
  | some out => if out = [] then [] else splitOnChar '\n' out

/-- unpushedCommits: raw log lines of commits on the branch absent from
its upstream, falling back to commits absent from any remote. -/
def unpushedCommits (env : UnpushedEnv) (branch : Str) : List Str :=
  let out :=
    match env.logUpstream branch with
    | some o => o
    | none => env.logNoRemotes branch
  if out = [] then [] else splitOnChar '\n' out

/-- The OK result reported when nothing is unpushed. -/
def okNoUnpushed : Result :=
  ⟨nUnpushed, Status.ok, "no unpushed commits".data, [], false⟩

/-- Branches the unpushed rule hands off to branch cleanup: PR checkouts
(remote set, merge ref under the pull-request prefix) and orphan branches
by other authors (no remote, tip author set and different from the
configured identity). -/
def unpushedSkip (cfg : Config) (env : UnpushedEnv) (branch : Str) : Bool :=
  if env.remoteOf branch = [] then
    decide (env.authorOf branch ≠ []) &&
      decide (env.authorOf branch ≠ cfg.identity.name)
  else sRefsPull.isPrefixOf (env.mergeOf branch)

/-- The unpushed log lines of a branch that parse: each with its commit
timestamp from the fixed-width date column. -/
def unpushedParsed (env : UnpushedEnv) (branch : Str) :
    List (Str × Int) :=
  (unpushedCommits env branch).filterMap (fun line =>
    if line.length < 42 then none
    else
      match env.parseT ((line.drop 41).take 25) with
      | none => none
      | some t => some (line, t))

/-- The detail line of one unpushed commit: short hash, subject and age. -/
def unpushedDetails (env : UnpushedEnv) (branch : Str) : List Str :=
  (unpushedParsed env branch).map (fun lt =>
    lt.1.take 7 ++ ' ' ::
      ((if lt.1.length > 67 then lt.1.drop 67 else []) ++
        " (".data ++ formatDuration (env.now - lt.2) ++ " ago)".data))

/-- How many unpushed commits of the branch exceed the threshold. -/
def unpushedStale (cfg : Config) (env : UnpushedEnv) (branch : Str) : Nat :=
  ((unpushedParsed env branch).filter (fun lt =>
    decide (env.now - lt.2 > cfg.thresholds.unpushedMaxAge))).length

/-- The stale-ratio message, naming the tip author when it differs from
the configured identity. -/
def unpushedMsg (cfg : Config) (env : UnpushedEnv) (branch : Str) : Str :=
  if env.authorOf branch ≠ [] ∧ env.authorOf branch ≠ cfg.identity.name then
    natToStr (unpushedStale cfg env branch) ++ '/' ::
      natToStr (unpushedDetails env branch).length ++
      " commits older than ".data ++
      formatDuration cfg.thresholds.unpushedMaxAge ++
      " (by ".data ++ env.authorOf branch ++ [')']
  else
    natToStr (unpushedStale cfg env branch) ++ '/' ::
      natToStr (unpushedDetails env branch).length ++
      " commits older than ".data ++
      formatDuration cfg.thresholds.unpushedMaxAge

/-- The unpushed rule's verdict for one branch. -/
def unpushedBranch (cfg : Config) (env : UnpushedEnv) (branch : Str) :
    Option Result :=
  if unpushedSkip cfg env branch then none
  else if unpushedCommits env branch = [] then none
  else if unpushedStale cfg env branch > 0 then
    some ⟨mkName nUnpushed branch, Status.fail, unpushedMsg cfg env branch,
      unpushedDetails env branch, false⟩
  else none

/-- UnpushedCheck.Check: disabled when the threshold is zero; per local
branch (skipping PR checkouts and orphan branches by other authors,
which branch cleanup owns) count unpushed commits older than the
threshold and report the stale ratio. -/
def unpushedCheck (cfg : Config) (env : UnpushedEnv) : List Result :=
  if cfg.thresholds.unpushedMaxAge = 0 then []
  else if localBranches env = [] then [okNoUnpushed]
  else if (localBranches env).filterMap (unpushedBranch cfg env) = [] then
    [okNoUnpushed]
  else (localBranches env).filterMap (unpushedBranch cfg env)

/-- UnpushedCheck.Fix: warn-only, returns its input unchanged. -/
def unpushedFixRun (results : List Result) : List Result := results

/-! ### Submodule rule -/

/-- Name of the submodule-init result family. -/
def nSubInit : Str := "submodule/init".data

/-- Name of the submodule-sync result family. -/
def nSubSync : Str := "submodule/sync".data

/-- Name of the submodule-uncommitted result family. -/
def nSubUncommitted : Str := "submodule/uncommitted".data

/-- Name of the submodule-untracked result family. -/
def nSubUntracked : Str := "submodule/untracked".data

/-- Name of the submodule-unpushed result family. -/
def nSubUnpushed : Str := "submodule/unpushed".data

/-- Name of the submodule status-failure result. -/
def nSubStatus : Str := "submodule/status".data

/-- The repository observations the submodule rule reads: whether
.gitmodules exists, the raw submodule-status output (none models a failed
subprocess) and its error text, and per-path porcelain and upstream-log
outputs from inside each submodule directory (none models a failed
subprocess). -/
structure SubEnv where
  hasGitmodules : Bool
  statusOut : Option Str
  statusErrText : Str
  porcelainIn : Str → Option Str
  logUpstreamIn : Str → Option Str

/-- submoduleStatus: parse each status line into its path and one-character
prefix; short or field-poor lines are skipped. -/
def submoduleStatusParse (out : Str) : List (Str × Char) :=
  (splitOnChar '\n' out).filterMap (fun line =>
    if line.length < 2 then none
    else
      match line with
      | [] => none
      | pfx :: rest =>
        let fs := fields rest
        match fs.get? 1 with
        | none => none
        | some path => some (path, pfx))

/-- checkSubmodule: an uninitialized submodule yields a single fixable
entry and skips all further checks; otherwise sync, uncommitted,
untracked and unpushed projections run against the submodule's own
working directory. -/
def checkSubmodule (env : SubEnv) (path : Str) (pfx : Char) : List Result :=
  if pfx = '-' then
    [⟨mkName nSubInit path, Status.warn, "submodule not initialized".data,
      [], true⟩]
  else
    (if pfx = '+' then
       [⟨mkName nSubSync path, Status.warn,
         "checked-out commit differs from parent".data, [], false⟩]
     else [])
    ++ (match env.porcelainIn path with
        | none => []
        | some p =>
          if p = [] then []
          else
            let lines := splitOnChar '\n' p
            let untrackedDetails :=
              (lines.filter (fun l => sUntrackedPfx.isPrefixOf l)).map
                (fun l => l.drop 3)
            let uncommittedDetails :=
              lines.filter (fun l => ! sUntrackedPfx.isPrefixOf l)
            (if uncommittedDetails ≠ [] then
               [⟨mkName nSubUncommitted path, Status.warn,
                 natToStr uncommittedDetails.length ++
                   " uncommitted changes".data, uncommittedDetails, false⟩]
             else [])
            ++ (if untrackedDetails ≠ [] then
                  [⟨mkName nSubUntracked path, Status.warn,
                    natToStr untrackedDetails.length ++
                      " untracked files".data, untrackedDetails, false⟩]
                else []))
    ++ (match env.logUpstreamIn path with
        | none => []
        | some u =>
          if u = [] then []
          else
            let lines := splitOnChar '\n' u
            [⟨mkName nSubUnpushed path, Status.warn,
              natToStr lines.length ++ " unpushed commits".data,
              lines, false⟩])

/-- SubmoduleCheck.Check: silent without .gitmodules; a failed status
listing degrades to one warning; otherwise every parsed submodule is
checked. -/
def submoduleCheck (env : SubEnv) : List Result :=
  if ¬ env.hasGitmodules then []
  else
    match env.statusOut with
    | none =>
      [⟨nSubStatus, Status.warn,
        "cannot read submodule status: ".data ++ env.statusErrText,
        [], false⟩]
    | some out =>
      let parsed := submoduleStatusParse out
      if parsed = [] then []
      else parsed.flatMap (fun pp => checkSubmodule env pp.1 pp.2)

/-- The entity paths of the fixable (uninitialized) entries, batched into
the single initialize-and-update command. -/
def submoduleFixPaths (results : List Result) : List Str :=
  results.filterMap (fun r =>
    if r.fixable then
      if entityOf r.name ≠ [] then some (entityOf r.name) else none
    else none)

/-- One entry of SubmoduleCheck.Fix's rewrite after the batched command:
fixable entries are replaced on success, everything else passes
through. -/
def submoduleFixEntry (updateOk : Bool) (r : Result) : Result :=
  if ¬ r.fixable then r
  else if updateOk then
    ⟨r.name, Status.fix, "initialized ".data ++ entityOf r.name, [], false⟩
  else r

/-- SubmoduleCheck.Fix: batch all fixable (uninitialized) paths into one
initialize-and-update command; updateOk models success of that single
command; on success every fixable entry is replaced. -/
def submoduleFixRun (updateOk : Bool) (results : List Result) :
    List Result :=
  if submoduleFixPaths results = [] then results
  else results.map (submoduleFixEntry updateOk)

/-! ### Branch cleanup rule -/

/-- Name of the gone-branch result family. -/
def nBranchGone : Str := "branch/gone".data

/-- Name of the merged-branch result family. -/
def nBranchMerged : Str := "branch/merged".data

/-- Name of the stale-PR-checkout result family. -/
def nBranchPr : Str := "branch/pr".data

/-- Name of the orphan-branch result family. -/
def nBranchOrphan : Str := "branch/orphan".data

/-- Name of the all-clean placeholder result. -/
def nBranchCleanup : Str := "branch/cleanup".data

/-- One parsed line of the for-each-ref listing: branch name, short hash,
tip author, upstream tracking status text and upstream ref (empty when no
upstream is configured). -/
structure BranchInfo where
  name : Str
  hash : Str
  author : Str
  track : Str
  upstream : Str
deriving DecidableEq

/-- The repository observations stalePRCheckout makes: per-branch merge
and remote configuration, success of the ancestry test against the main
branch's upstream and against local main, and the ls-remote output for a
pull-request ref (none models a failed remote query). -/
structure PREnv where
  mergeRefOf : Str → Str
  remoteOf : Str → Str
  ancUpstream : Str → Bool
  ancLocal : Str → Bool
  lsRemote : Str → Str → Option Str

/-- stalePRCheckout: a non-empty reason when the branch tracks a
refs-pull ref and is stale, either because it is an ancestor of main
(checked against main's upstream first, then local main) or because the
remote's current value for the pull-request ref no longer extends the
local short hash; remote-query failures yield no reason. -/
def stalePRCheckout (pre : PREnv) (branch shortHash author mainBranch : Str) :
    Str :=
  let mergeRef := pre.mergeRefOf branch
  if ¬ sRefsPull.isPrefixOf mergeRef then []
  else
    let remote := pre.remoteOf branch
    if remote = [] then []
    else
      let pr := (splitOnChar '/' mergeRef).getD 2 []
      let detail := '(' :: (shortHash ++ " by ".data ++ author ++ [')'])
      if mainBranch ≠ [] ∧
          (pre.ancUpstream branch = true ∨ pre.ancLocal branch = true) then
        "PR #".data ++ pr ++ " merged ".data ++ detail
      else
        match pre.lsRemote remote mergeRef with
        | none => []
        | some lsOut =>
          if lsOut = [] then []
          else
            let remoteHash := (fields lsOut).getD 0 []
            if ¬ shortHash.isPrefixOf remoteHash then
              "PR #".data ++ pr ++ " updated since checkout ".data ++ detail
            else []

/-- The repository context of one branch-cleanup run: the checked-out
branch, the main branch, the set of branches fully merged into main, and
the configured identity name. -/
structure BranchEnv where
  currentBranch : Str
  mainBranch : Str
  merged : Str → Bool
  identityName : Str

/-- The gone classifier condition: the upstream tracking text reports the
remote branch deleted. -/
def goneCond (b : BranchInfo) : Bool := hasSubstr b.track "gone".data

/-- The four classifiers in priority order, producing the result name and
base message of the first match. -/
def classifyRaw (env : BranchEnv) (pre : PREnv) (b : BranchInfo) :
    Option (Str × Str) :=
  if goneCond b then
    some (mkName nBranchGone b.name,
      "upstream deleted (".data ++ b.hash ++ " by ".data ++ b.author ++ [')'])
  else if env.merged b.name then
    some (mkName nBranchMerged b.name,
      "merged into ".data ++ env.mainBranch ++ " (".data ++ b.hash ++
        " by ".data ++ b.author ++ [')'])
  else
    if stalePRCheckout pre b.name b.hash b.author env.mainBranch ≠ [] then
      some (mkName nBranchPr b.name,
        stalePRCheckout pre b.name b.hash b.author env.mainBranch)
    else if b.upstream = [] ∧ b.author ≠ env.identityName then
      some (mkName nBranchOrphan b.name,
        "no upstream, tip by ".data ++ b.author ++ " (".data ++ b.hash ++
          [')'])
    else none

/-- BranchCleanupCheck.Check, per branch: the main branch is skipped, the
checked-out branch is reported but marked non-fixable with an
explanatory message suffix. -/
def checkBranch (env : BranchEnv) (pre : PREnv) (b : BranchInfo) :
    Option Result :=
  if b.name = env.mainBranch then none
  else
    let fixable := decide (b.name ≠ env.currentBranch)
    (classifyRaw env pre b).map (fun nm =>
      { name := nm.1, status := Status.warn,
        message :=
          if fixable then nm.2
          else nm.2 ++ " (checked out, switch branch to fix)".data,
        details := [], fixable := fixable })

/-- BranchCleanupCheck.Check over the parsed branch listing, with the
all-clean placeholder when nothing matches. -/
def branchCheck (env : BranchEnv) (pre : PREnv)
    (branches : List BranchInfo) : List Result :=
  if branches.filterMap (checkBranch env pre) = [] then
    [⟨nBranchCleanup, Status.ok, "no stale branches".data, [], false⟩]
  else branches.filterMap (checkBranch env pre)

/-- BranchCleanupCheck.Fix: forced deletion of the entity of every fixable
entry; delOk models per-branch success of the delete command.  Returns
the rewritten results together with the branch names on which a delete
command was issued. -/
def branchFixRun (delOk : Str → Bool) : List Result → List Result × List Str
  | [] => ([], [])
  | r :: rest =>
    let next := branchFixRun delOk rest
    if ¬ r.fixable then (r :: next.1, next.2)
    else
      let param := entityOf r.name
      if param = [] then (r :: next.1, next.2)
      else if delOk param then
        (⟨r.name, Status.fix, "deleted ".data ++ param, [], false⟩ :: next.1,
          param :: next.2)
      else (r :: next.1, param :: next.2)

/-! ### Concrete repository states used to evaluate the definitions -/

/-- A fork environment whose API lookup fails. -/
def envForkFail : ForkEnv :=
  { originURL := "https://github.com/alice/proj".data, api := none }

/-- A fork environment whose API lookup succeeds with a parent. -/
def envForkOk : ForkEnv :=
  { originURL := "https://github.com/alice/proj".data,
    api := some ("acme/proj".data) }

/-- A configuration with every threshold zero (unset). -/
def cfgZero : Config :=
  { workOrgs := [], protocol := [],
    identity := { name := [], workEmail := [], personalEmail := [] },
    thresholds := { stashMaxAge := 0, stashMaxCount := 0,
                    uncommittedMaxAge := 0, unpushedMaxAge := 0 } }

/-- A configuration with a 5ns unpushed threshold and identity Alice. -/
def cfgUnp : Config :=
  { workOrgs := [], protocol := [],
    identity := { name := "Alice".data, workEmail := [], personalEmail := [] },
    thresholds := { stashMaxAge := 0, stashMaxCount := 0,
                    uncommittedMaxAge := 0, unpushedMaxAge := 5 } }

/-- The 25-character timestamp used by the concrete states. -/
def dateStr25 : Str := "2020-01-01 00:00:00 +0000".data

/-- A staleness observation with one stash entry at time zero, observed at
time 5. -/
def envStashOld : StaleEnv :=
  { stashOut := some ("2020-01-01 00:00:00 +0000 entry one".data),
    porcelain := [], lastCommit := none,
    parseT := fun s => if s = dateStr25 then some 0 else none,
    now := 5 }

/-- A staleness observation with no stashes and a clean tree. -/
def envNoStash : StaleEnv :=
  { stashOut := some [], porcelain := [], lastCommit := none,
    parseT := fun _ => none, now := 0 }

/-- One raw unpushed log line: 40-character hash, space, timestamp,
space, subject. -/
def commitLine : Str :=
  "aaaaaaaaaaaaaaaaaaaaaaaaaaaaaaaaaaaaaaaa 2020-01-01 00:00:00 +0000 subj".data

/-- An unpushed observation with one branch carrying one commit of age 10
against a threshold of 5. -/
def envUnp : UnpushedEnv :=
  { forEachRef := some ("b".data),
    remoteOf := fun _ => sOrigin,
    mergeOf := fun _ => [],
    authorOf := fun _ => [],
    logUpstream := fun _ => some commitLine,
    logNoRemotes := fun _ => [],
    parseT := fun s => if s = dateStr25 then some 0 else none,
    now := 10 }

/-- A repository with a single remote. -/
def stRem1 : RepoSt :=
  { remotes := [sOrigin], remoteURL := fun _ => [], gitCfg := fun _ => [],
    work := false, workOrgs := [], mainBranch := [], api := none }

/-- A repository without a .gitmodules file. -/
def subNoMod : SubEnv :=
  { hasGitmodules := false, statusOut := none, statusErrText := [],
    porcelainIn := fun _ => none, logUpstreamIn := fun _ => none }

/-- A two-remote work fork whose parent remote resolves, with empty local
configuration. -/
def stFix : RepoSt :=
  { remotes := [sOrigin, "up".data],
    remoteURL := fun n =>
      if n = sOrigin then "https://github.com/alice/proj".data
      else "https://github.com/work/proj".data,
    gitCfg := fun _ => [],
    work := true, workOrgs := ["work".data], mainBranch := "main".data,
    api := some ("work/proj".data) }

/-- A work repository whose settings file holds an empty attribution and
whose exclude file lists both claude patterns. -/
def attrEnvFixed : AttrEnv :=
  { work := true, settings := AttrObs.attr [] [],
    excludeLines := ["CLAUDE.md".data, ".claude/".data] }

/-- A PR-checkout state where the branch is an ancestor of main's
upstream. -/
def preMerged : PREnv :=
  { mergeRefOf := fun _ => "refs/pull/42/head".data,
    remoteOf := fun _ => sOrigin,
    ancUpstream := fun _ => true, ancLocal := fun _ => false,
    lsRemote := fun _ _ => none }

/-- A PR-checkout state where the remote PR ref moved past the local tip. -/
def preUpdated : PREnv :=
  { mergeRefOf := fun _ => "refs/pull/42/head".data,
    remoteOf := fun _ => sOrigin,
    ancUpstream := fun _ => false, ancLocal := fun _ => false,
    lsRemote := fun _ _ => some ("deadbeef\trefs/pull/42/head".data) }

/-- A PR-checkout state where the remote query fails. -/
def preOffline : PREnv :=
  { mergeRefOf := fun _ => "refs/pull/42/head".data,
    remoteOf := fun _ => sOrigin,
    ancUpstream := fun _ => false, ancLocal := fun _ => false,
    lsRemote := fun _ _ => none }

/-- A PR environment in which no branch tracks a pull-request ref. -/
def preNone : PREnv :=
  { mergeRefOf := fun _ => [], remoteOf := fun _ => [],
    ancUpstream := fun _ => false, ancLocal := fun _ => false,
    lsRemote := fun _ _ => none }

/-- Branch name g1. -/
def sG1 : Str := "g1".data

/-- Branch name m1. -/
def sM1 : Str := "m1".data

/-- The checked-out branch name of the concrete state. -/
def sCur : Str := "cur".data

/-- A branch context: cur checked out, main exists, m1 fully merged,
identity Alice. -/
def envBr : BranchEnv :=
  { currentBranch := sCur, mainBranch := "main".data,
    merged := fun n => n = sM1, identityName := "Alice".data }

/-- A branch whose upstream is gone. -/
def bGone : BranchInfo :=
  { name := sG1, hash := "h1".data, author := "Bob".data,
    track := "[gone]".data, upstream := "origin/g1".data }

/-- A branch fully merged into main. -/
def bMerged : BranchInfo :=
  { name := sM1, hash := "h2".data, author := "Alice".data,
    track := [], upstream := "origin/m1".data }

/-- The checked-out branch, whose upstream is also gone. -/
def bCur : BranchInfo :=
  { name := sCur, hash := "h3".data, author := "Bob".data,
    track := "[gone]".data, upstream := "o/c".data }

/-- An identity configuration for the concrete states. -/
def idcW : IdentityConfig :=
  { name := "Alice".data, workEmail := "alice@work".data,
    personalEmail := "alice@home".data }

/-- A local/global configuration with wrong name and unset email. -/
def idStW : IdSt :=
  { localName := none, globalName := some ("Bob".data),
    localEmail := none, globalEmail := none }

/-- The OK name result after fixing idStW against idcW. -/
def resIdName : Result :=
  ⟨nIdentityName, Status.ok, "Alice".data, [], false⟩

/-- The stash-age OK result of a repository without stashes. -/
def resStashOk : Result :=
  ⟨nStashAge, Status.ok, "no stale stash entries".data, [], false⟩

/-- The merged-branch result of the concrete branch state. -/
def resMergedW : Result :=
  ⟨mkName nBranchMerged sM1, Status.warn,
    "merged into main (h2 by Alice)".data, [], true⟩

/-- An entity name used to exercise the round trip. -/
def sFeat : Str := "feat".data

/-! ### Helper lemmas -/

theorem breakOn_not_mem {c : Char} {l : Str} (h : c ∉ l) :
    breakOn c l = (l, none) := by
  induction l with
  | nil => rfl
  | cons x xs ih =>
    have hx : x ≠ c := fun hxc => h (hxc ▸ List.mem_cons_self x xs)
    have hxs : c ∉ xs := fun hm => h (List.mem_cons_of_mem _ hm)
    simp [breakOn, hx, ih hxs]

theorem breakOn_found {c : Char} {l₁ : Str} (l₂ : Str) (h : c ∉ l₁) :
    breakOn c (l₁ ++ c :: l₂) = (l₁, some l₂) := by
  induction l₁ with
  | nil => simp [breakOn]
  | cons x xs ih =>
    have hx : x ≠ c := fun hxc => h (hxc ▸ List.mem_cons_self x xs)
    have hxs : c ∉ xs := fun hm => h (List.mem_cons_of_mem _ hm)
    simp [breakOn, hx, ih hxs]

theorem splitResultName_mkName {rule : Str} (entity : Str)
    (h : '[' ∉ rule) :
    splitResultName (mkName rule entity) = (rule, entity) := by
  have hb := @breakOn_found '[' rule (entity ++ [']']) h
  simp [splitResultName, mkName, hb]

theorem splitResultName_plain {name : Str} (h : '[' ∉ name) :
    splitResultName name = (name, []) := by
  simp [splitResultName, breakOn_not_mem h]

theorem entityOf_mkName {rule : Str} (entity : Str) (h : '[' ∉ rule) :
    entityOf (mkName rule entity) = entity := by
  simp [entityOf, splitResultName_mkName entity h]

theorem mkName_length (rule entity : Str) :
    (mkName rule entity).length = rule.length + entity.length + 2 := by
  simp [mkName]
  omega

theorem mkName_left_inj {r₁ r₂ e : Str} (h : mkName r₁ e = mkName r₂ e) :
    r₁ = r₂ := by
  have hlen : r₁.length = r₂.length := by
    have := congrArg List.length h
    rw [mkName_length, mkName_length] at this
    omega
  have h₁ : (mkName r₁ e).take r₁.length = r₁ := List.take_left r₁ _
  have h₂ : (mkName r₂ e).take r₂.length = r₂ := List.take_left r₂ _
  rw [← h₁, ← h₂, h, hlen]

theorem countP_filterMap_le {α β : Type} (f : α → Option β)
    (p : β → Bool) (q : α → Bool)
    (h : ∀ a b, f a = some b → p b = true → q a = true) :
    ∀ l : List α, (l.filterMap f).countP p ≤ l.countP q := by
  intro l
  induction l with
  | nil => simp
  | cons a t ih =>
    cases hf : f a with
    | none =>
      rw [List.filterMap_cons_none hf, List.countP_cons]
      split <;> omega
    | some b =>
      rw [List.filterMap_cons_some hf]
      simp only [List.countP_cons]
      by_cases hp : p b = true
      · have hq := h a b hf hp
        rw [if_pos hp, if_pos hq]
        omega
      · rw [if_neg hp]
        split <;> omega

theorem forall2_map_self {α : Type} (f : α → α) (rel : α → α → Prop)
    (h : ∀ a, rel a (f a)) (l : List α) :
    List.Forall₂ rel l (l.map f) := by
  induction l with
  | nil => exact List.Forall₂.nil
  | cons a t ih => exact List.Forall₂.cons (h a) ih

theorem forall2_self {α : Type} (rel : α → α → Prop)
    (h : ∀ a, rel a a) (l : List α) :
    List.Forall₂ rel l l := by
  induction l with
  | nil => exact List.Forall₂.nil
  | cons a t ih => exact List.Forall₂.cons (h a) ih

theorem checkBranch_eq_some {env : BranchEnv} {pre : PREnv}
    {b : BranchInfo} {r : Result}
    (h : checkBranch env pre b = some r) :
    b.name ≠ env.mainBranch ∧ ∃ nm, classifyRaw env pre b = some nm ∧
      r.name = nm.1 ∧ r.status = Status.warn ∧ r.details = [] ∧
      r.fixable = decide (b.name ≠ env.currentBranch) := by
  unfold checkBranch at h
  by_cases hm : b.name = env.mainBranch
  · rw [if_pos hm] at h
    exact absurd h (by simp)
  · rw [if_neg hm] at h
    cases hc : classifyRaw env pre b with
    | none =>
      rw [hc] at h
      exact absurd h (by simp)
    | some nm =>
      rw [hc] at h
      simp only [Option.map_some', Option.some.injEq] at h
      exact ⟨hm, nm, rfl, by rw [← h], by rw [← h], by rw [← h],
        by rw [← h]⟩

theorem classifyRaw_name {env : BranchEnv} {pre : PREnv}
    {b : BranchInfo} {nm : Str × Str}
    (h : classifyRaw env pre b = some nm) :
    nm.1 = mkName nBranchGone b.name ∨ nm.1 = mkName nBranchMerged b.name ∨
    nm.1 = mkName nBranchPr b.name ∨
    nm.1 = mkName nBranchOrphan b.name := by
  unfold classifyRaw at h
  split at h
  · exact Or.inl (by simp only [Option.some.injEq] at h; rw [← h])
  · split at h
    · exact Or.inr (Or.inl
        (by simp only [Option.some.injEq] at h; rw [← h]))
    · split at h
      · exact Or.inr (Or.inr (Or.inl
          (by simp only [Option.some.injEq] at h; rw [← h])))
      · split at h
        · exact Or.inr (Or.inr (Or.inr
            (by simp only [Option.some.injEq] at h; rw [← h])))
        · exact absurd h (by simp)

theorem checkBranch_entity {env : BranchEnv} {pre : PREnv}
    {b : BranchInfo} {r : Result}
    (h : checkBranch env pre b = some r) : entityOf r.name = b.name := by
  obtain ⟨-, nm, hc, hn, -⟩ := checkBranch_eq_some h
  rcases classifyRaw_name hc with h1 | h1 | h1 | h1 <;>
    rw [hn, h1, entityOf_mkName _ (by decide)]

theorem checkBranch_fixable {env : BranchEnv} {pre : PREnv}
    {b : BranchInfo} {r : Result}
    (h : checkBranch env pre b = some r) :
    r.fixable = decide (b.name ≠ env.currentBranch) := by
  obtain ⟨-, nm, -, -, -, -, hf⟩ := checkBranch_eq_some h
  exact hf

theorem branchCheck_mem {env : BranchEnv} {pre : PREnv}
    {branches : List BranchInfo} {r : Result}
    (h : r ∈ branchCheck env pre branches) :
    r = ⟨nBranchCleanup, Status.ok, "no stale branches".data, [], false⟩ ∨
    ∃ b ∈ branches, checkBranch env pre b = some r := by
  unfold branchCheck at h
  split at h
  · simp only [List.mem_singleton] at h
    exact Or.inl h
  · obtain ⟨b, hb, hcb⟩ := List.mem_filterMap.mp h
    exact Or.inr ⟨b, hb, hcb⟩

theorem branchFixRun_dels {delOk : Str → Bool} :
    ∀ (rs : List Result) (b : Str), b ∈ (branchFixRun delOk rs).2 →
      b ≠ [] ∧ ∃ r ∈ rs, r.fixable = true ∧ entityOf r.name = b := by
  intro rs
  induction rs with
  | nil => intro b hb; exact absurd hb (by simp [branchFixRun])
  | cons r rest ih =>
    intro b hb
    unfold branchFixRun at hb
    by_cases hf : r.fixable
    · rw [if_neg (by simp [hf])] at hb
      by_cases hp : entityOf r.name = []
      · rw [if_pos hp] at hb
        obtain ⟨hne, r', hr', hprop⟩ := ih b hb
        exact ⟨hne, r', List.mem_cons_of_mem _ hr', hprop⟩
      · rw [if_neg hp] at hb
        by_cases hd : delOk (entityOf r.name) = true
        · rw [if_pos hd] at hb
          rcases List.mem_cons.mp hb with hb1 | hb2
          · exact ⟨hb1 ▸ hp, r, List.mem_cons_self _ _, by simp [hf], hb1.symm⟩
          · obtain ⟨hne, r', hr', hprop⟩ := ih b hb2
            exact ⟨hne, r', List.mem_cons_of_mem _ hr', hprop⟩
        · rw [if_neg hd] at hb
          rcases List.mem_cons.mp hb with hb1 | hb2
          · exact ⟨hb1 ▸ hp, r, List.mem_cons_self _ _, by simp [hf], hb1.symm⟩
          · obtain ⟨hne, r', hr', hprop⟩ := ih b hb2
            exact ⟨hne, r', List.mem_cons_of_mem _ hr', hprop⟩
    · rw [if_pos (by simp [hf])] at hb
      obtain ⟨hne, r', hr', hprop⟩ := ih b hb
      exact ⟨hne, r', List.mem_cons_of_mem _ hr', hprop⟩

theorem branchFixRun_out_fixable {rs : List Result} :
    ∀ r ∈ (branchFixRun (fun _ => true) rs).1, r.fixable = true →
      entityOf r.name = [] := by
  induction rs with
  | nil => intro r hr; exact absurd hr (by simp [branchFixRun])
  | cons a rest ih =>
    intro r hr hf
    unfold branchFixRun at hr
    by_cases ha : a.fixable
    · rw [if_neg (by simp [ha])] at hr
      by_cases hp : entityOf a.name = []
      · rw [if_pos hp] at hr
        rcases List.mem_cons.mp hr with h1 | h2
        · exact h1 ▸ hp
        · exact ih r h2 hf
      · rw [if_neg hp, if_pos rfl] at hr
        rcases List.mem_cons.mp hr with h1 | h2
        · rw [h1] at hf
          exact absurd hf (by simp)
        · exact ih r h2 hf
    · rw [if_pos (by simp [ha])] at hr
      rcases List.mem_cons.mp hr with h1 | h2
      · exact absurd (h1 ▸ hf) (by simp [ha])
      · exact ih r h2 hf

theorem branchFixRun_dels_nil {delOk : Str → Bool} :
    ∀ rs : List Result, (∀ r ∈ rs, r.fixable = true → entityOf r.name = []) →
      (branchFixRun delOk rs).2 = [] := by
  intro rs
  induction rs with
  | nil => intro _; rfl
  | cons a rest ih =>
    intro h
    unfold branchFixRun
    by_cases ha : a.fixable
    · rw [if_neg (by simp [ha])]
      rw [if_pos (h a (List.mem_cons_self _ _) ha)]
      exact ih (fun r hr => h r (List.mem_cons_of_mem _ hr))
    · rw [if_pos (by simp [ha])]
      exact ih (fun r hr => h r (List.mem_cons_of_mem _ hr))

theorem email_name_ne : nIdentityEmail ≠ nIdentityName := by decide

theorem effectiveCfg_some (x : Str) (y : Option Str) :
    effectiveCfg (some x) y = x := rfl

theorem identityFix_check_ok (work : Bool) (idc : IdentityConfig)
    (st : IdSt) :
    ∀ r ∈ identityCheck work idc
        (identityFix work idc (fun _ => true) st
          (identityCheck work idc st)).1,
      r.status = Status.ok := by
  cases work with
  | false =>
    by_cases hn : effectiveCfg st.localName st.globalName = idc.name <;>
    by_cases he : effectiveCfg st.localEmail st.globalEmail = idc.workEmail ∨
        effectiveCfg st.localEmail st.globalEmail = idc.personalEmail <;>
    simp [identityCheck, identityFix, hn, he, email_name_ne,
      effectiveCfg_some]
  | true =>
    by_cases hn : effectiveCfg st.localName st.globalName = idc.name <;>
    by_cases he : st.localEmail.getD [] = idc.workEmail <;>
    simp [identityCheck, identityFix, hn, he, email_name_ne,
      effectiveCfg_some]

theorem identityFix_id_of (work : Bool) (idc : IdentityConfig)
    (setOk : Str → Bool) :
    ∀ (st : IdSt) (rs : List Result),
      (∀ r ∈ rs, r.status = Status.fail → r.fixable = true →
        r.name ≠ nIdentityName ∧ r.name ≠ nIdentityEmail) →
      identityFix work idc setOk st rs = (st, rs) := by
  intro st rs
  induction rs generalizing st with
  | nil => intro _; rfl
  | cons r rest ih =>
    intro h
    have hrest : ∀ r ∈ rest, r.status = Status.fail → r.fixable = true →
        r.name ≠ nIdentityName ∧ r.name ≠ nIdentityEmail :=
      fun r hr => h r (List.mem_cons_of_mem _ hr)
    unfold identityFix
    by_cases hc : r.status ≠ Status.fail ∨ ¬ r.fixable
    · rw [if_pos hc, ih st hrest]
    · push_neg at hc
      obtain ⟨hs, hf⟩ := hc
      obtain ⟨h1, h2⟩ := h r (List.mem_cons_self _ _) hs hf
      rw [if_neg (by push_neg; exact ⟨hs, hf⟩), if_neg h1, if_neg h2,
        ih st hrest]

theorem identityFix_out_safe (work : Bool) (idc : IdentityConfig) :
    ∀ (st : IdSt) (rs : List Result),
      ∀ r ∈ (identityFix work idc (fun _ => true) st rs).2,
        r.status = Status.fail → r.fixable = true →
        r.name ≠ nIdentityName ∧ r.name ≠ nIdentityEmail := by
  intro st rs
  induction rs generalizing st with
  | nil =>
    intro r hr
    exact absurd hr (by simp [identityFix])
  | cons a rest ih =>
    intro r hr hs hf
    unfold identityFix at hr
    by_cases hc : a.status ≠ Status.fail ∨ ¬ a.fixable
    · rw [if_pos hc] at hr
      rcases List.mem_cons.mp hr with h1 | h2
      · subst h1
        rcases hc with hc | hc
        · exact absurd hs hc
        · exact absurd hf (by simpa using hc)
      · exact ih st r h2 hs hf
    · rw [if_neg hc] at hr
      by_cases h1 : a.name = nIdentityName
      · rw [if_pos h1] at hr
        simp only [if_pos rfl] at hr
        rcases List.mem_cons.mp hr with h2 | h3
        · rw [h2] at hs
          exact absurd hs (by simp)
        · exact ih _ r h3 hs hf
      · rw [if_neg h1] at hr
        by_cases h2 : a.name = nIdentityEmail
        · rw [if_pos h2] at hr
          simp only [if_pos rfl] at hr
          rcases List.mem_cons.mp hr with h3 | h4
          · rw [h3] at hs
            exact absurd hs (by simp)
          · exact ih _ r h4 hs hf
        · rw [if_neg h2] at hr
          rcases List.mem_cons.mp hr with h3 | h4
          · subst h3
            exact ⟨h1, h2⟩
          · exact ih st r h4 hs hf

/-! ### Fork-cache lemmas -/

theorem runForkCalls_cached (env : ForkEnv) :
    ∀ (n : Nat) (cache : Str), cache ≠ [] →
      (runForkCalls env n cache).2 = 0 := by
  intro n
  induction n with
  | zero => intro cache _; rfl
  | succ m ih =>
    intro cache h
    have hstep : forkParent1 env cache =
        (if cache = sNone then [] else cache, cache, false) := by
      unfold forkParent1
      by_cases hs : cache = sNone
      · simp [hs]
      · rw [if_neg hs, if_pos h, if_neg hs]
    simp only [runForkCalls]
    rw [hstep]
    simp [ih cache h]

theorem runForkCalls_noparse (env : ForkEnv)
    (hp : (parseGitHubRepo env.originURL).1 = []) :
    ∀ n : Nat, (runForkCalls env n []).2 = 0 := by
  intro n
  induction n with
  | zero => rfl
  | succ m ih =>
    have hstep : forkParent1 env [] = ([], [], false) := by
      unfold forkParent1
      rw [if_neg (by decide), if_neg (fun h => h rfl), if_pos hp]
    simp only [runForkCalls]
    rw [hstep]
    simp [ih]

/-! ### Claim theorems -/

/-- C5 counterexample: with a parsable origin URL and a failing fork API,
two fork-parent resolutions within one process invocation (as a fix pass
performs) issue two external API calls, refuting the claim that at most
one external API call is issued per repository per process invocation. -/
theorem c5_fork_counterexample :
    ¬ ((runForkCalls envForkFail 2 []).2 ≤ 1) := by decide

/-- C5 (amended): a cached sentinel or value short-circuits resolution with
no API call; a successful lookup is cached immediately, so once the API is
available at most one API call is ever issued across any number of
resolutions; a failed lookup yields the non-fork result and leaves the
cache empty (so it may be retried by later resolutions in the same
invocation). -/
theorem c5_fork_cache :
    (∀ (env : ForkEnv) (cache : Str), cache = sNone →
      forkParent1 env cache = ([], cache, false)) ∧
    (∀ (env : ForkEnv) (cache : Str), cache ≠ [] → cache ≠ sNone →
      forkParent1 env cache = (cache, cache, false)) ∧
    (∀ (env : ForkEnv) (cache : Str), (forkParent1 env cache).2.2 = true →
      env.api.isSome = true → (forkParent1 env cache).2.1 ≠ []) ∧
    (∀ env : ForkEnv, env.api = none →
      (forkParent1 env []).1 = [] ∧ (forkParent1 env []).2.1 = []) ∧
    (∀ env : ForkEnv, env.api.isSome = true →
      ∀ (n : Nat) (cache : Str), (runForkCalls env n cache).2 ≤ 1) := by
  refine ⟨?_, ?_, ?_, ?_, ?_⟩
  · intro env cache h
    unfold forkParent1
    rw [if_pos h]
  · intro env cache h1 h2
    unfold forkParent1
    rw [if_neg h2, if_pos h1]
  · intro env cache hcall hapi
    unfold forkParent1 at hcall ⊢
    by_cases hs : cache = sNone
    · rw [if_pos hs] at hcall
      exact absurd hcall (by simp)
    · rw [if_neg hs] at hcall ⊢
      by_cases hne : cache ≠ []
      · rw [if_pos hne] at hcall
        exact absurd hcall (by simp)
      · rw [if_neg hne] at hcall ⊢
        by_cases hp : (parseGitHubRepo env.originURL).1 = []
        · rw [if_pos hp] at hcall
          exact absurd hcall (by simp)
        · rw [if_neg hp] at hcall ⊢
          cases hapi2 : env.api with
          | none => rw [hapi2] at hapi; exact absurd hapi (by simp)
          | some parent =>
            by_cases hpe : parent = [] <;> simp [hpe]
            decide
  · intro env hapi
    unfold forkParent1
    rw [if_neg (by decide), if_neg (fun h => h rfl)]
    by_cases hp : (parseGitHubRepo env.originURL).1 = []
    · rw [if_pos hp]
      exact ⟨rfl, rfl⟩
    · rw [if_neg hp, hapi]
      exact ⟨rfl, rfl⟩
  · intro env hapi n
    induction n with
    | zero => intro cache; simp [runForkCalls]
    | succ m ih =>
      intro cache
      by_cases hc : cache = []
      · subst hc
        by_cases hp : (parseGitHubRepo env.originURL).1 = []
        · rw [runForkCalls_noparse env hp]
          omega
        · cases hapi2 : env.api with
          | none => rw [hapi2] at hapi; exact absurd hapi (by simp)
          | some parent =>
            have hstep : forkParent1 env [] =
                ((if parent = [] then [] else parent),
                  (if parent = [] then sNone else parent), true) := by
              unfold forkParent1
              rw [if_neg (by decide), if_neg (fun h => h rfl), if_neg hp,
                hapi2]
              by_cases hpe : parent = [] <;> simp [hpe]
            have hrest :
                (runForkCalls env m (if parent = [] then sNone else parent)).2
                  = 0 := by
              refine runForkCalls_cached env m _ ?_
              by_cases hpe : parent = [] <;> simp [hpe]
              decide
            simp only [runForkCalls]
            rw [hstep]
            simp [hrest]
      · rw [runForkCalls_cached env (m + 1) cache hc]
        omega

/-- C5 witness: the sentinel short-circuits with no API call, and with an
available API any three resolutions issue at most one API call. -/
theorem c5_fork_cache_witness :
    forkParent1 envForkOk sNone = ([], sNone, false) ∧
    (runForkCalls envForkOk 3 []).2 ≤ 1 :=
  ⟨c5_fork_cache.1 envForkOk sNone rfl,
   c5_fork_cache.2.2.2.2 envForkOk (by decide) 3 []⟩

/-- C10: result-name round trip: for every rule string without an opening
bracket and every entity, splitResultName inverts the bracketed-name
construction used by the rules, and a name without a bracket splits into
itself with an empty entity — the recovery Fix implementations rely on. -/
theorem c10_split_round_trip :
    (∀ rule entity : Str, '[' ∉ rule →
      splitResultName (mkName rule entity) = (rule, entity)) ∧
    (∀ name : Str, '[' ∉ name → splitResultName name = (name, [])) :=
  ⟨fun _ entity h => splitResultName_mkName entity h,
   fun _ h => splitResultName_plain h⟩

/-- C10 witness at a concrete rule and entity. -/
theorem c10_round_trip_witness :
    splitResultName (mkName nBranchGone sFeat) = (nBranchGone, sFeat) ∧
    splitResultName nBranchCleanup = (nBranchCleanup, []) :=
  ⟨c10_split_round_trip.1 nBranchGone sFeat (by decide),
   c10_split_round_trip.2 nBranchCleanup (by decide)⟩

/-- C9: the stale-PR classifier fires only for branches whose merge ref
starts with the pull-request prefix (and with a configured remote); with
(a) the branch an ancestor of main — tried against main's upstream first,
then local main — it reports the PR merged; otherwise with (b) the
remote's current value of the PR ref not extending the local short hash
it reports the PR updated since checkout; a failed or empty remote query
makes the classifier not fire. -/
theorem c9_stale_pr_checkout (pre : PREnv)
    (branch shortHash author mainBranch : Str) :
    (stalePRCheckout pre branch shortHash author mainBranch ≠ [] →
      sRefsPull.isPrefixOf (pre.mergeRefOf branch) = true ∧
        pre.remoteOf branch ≠ []) ∧
    (sRefsPull.isPrefixOf (pre.mergeRefOf branch) = true →
      pre.remoteOf branch ≠ [] →
      mainBranch ≠ [] →
      (pre.ancUpstream branch = true ∨ pre.ancLocal branch = true) →
      stalePRCheckout pre branch shortHash author mainBranch =
        "PR #".data ++ (splitOnChar '/' (pre.mergeRefOf branch)).getD 2 [] ++
          " merged ".data ++
          '(' :: (shortHash ++ " by ".data ++ author ++ [')'])) ∧
    (sRefsPull.isPrefixOf (pre.mergeRefOf branch) = true →
      pre.remoteOf branch ≠ [] →
      ¬ (mainBranch ≠ [] ∧
          (pre.ancUpstream branch = true ∨ pre.ancLocal branch = true)) →
      pre.lsRemote (pre.remoteOf branch) (pre.mergeRefOf branch) = none →
      stalePRCheckout pre branch shortHash author mainBranch = []) ∧
    (sRefsPull.isPrefixOf (pre.mergeRefOf branch) = true →
      pre.remoteOf branch ≠ [] →
      ¬ (mainBranch ≠ [] ∧
          (pre.ancUpstream branch = true ∨ pre.ancLocal branch = true)) →
      pre.lsRemote (pre.remoteOf branch) (pre.mergeRefOf branch) = some [] →
      stalePRCheckout pre branch shortHash author mainBranch = []) ∧
    (∀ out : Str,
      sRefsPull.isPrefixOf (pre.mergeRefOf branch) = true →
      pre.remoteOf branch ≠ [] →
      ¬ (mainBranch ≠ [] ∧
          (pre.ancUpstream branch = true ∨ pre.ancLocal branch = true)) →
      pre.lsRemote (pre.remoteOf branch) (pre.mergeRefOf branch) = some out →
      out ≠ [] →
      shortHash.isPrefixOf ((fields out).getD 0 []) = false →
      stalePRCheckout pre branch shortHash author mainBranch =
        "PR #".data ++ (splitOnChar '/' (pre.mergeRefOf branch)).getD 2 [] ++
          " updated since checkout ".data ++
          '(' :: (shortHash ++ " by ".data ++ author ++ [')'])) ∧
    (∀ out : Str,
      sRefsPull.isPrefixOf (pre.mergeRefOf branch) = true →
      pre.remoteOf branch ≠ [] →
      ¬ (mainBranch ≠ [] ∧
          (pre.ancUpstream branch = true ∨ pre.ancLocal branch = true)) →
      pre.lsRemote (pre.remoteOf branch) (pre.mergeRefOf branch) = some out →
      out ≠ [] →
      shortHash.isPrefixOf ((fields out).getD 0 []) = true →
      stalePRCheckout pre branch shortHash author mainBranch = []) := by
  refine ⟨?_, ?_, ?_, ?_, ?_, ?_⟩
  · intro hne
    by_cases hpfx : sRefsPull.isPrefixOf (pre.mergeRefOf branch) = true
    · refine ⟨hpfx, ?_⟩
      by_cases hrem : pre.remoteOf branch = []
      · exact absurd (by simp [stalePRCheckout, hpfx, hrem]) hne
      · exact hrem
    · exact absurd (by simp [stalePRCheckout, hpfx]) hne
  · intro hpfx hrem hmain hanc
    simp [stalePRCheckout, hpfx, hrem, hmain, hanc]
  · intro hpfx hrem hnanc hls
    simp [stalePRCheckout, hpfx, hrem, hnanc, hls]
  · intro hpfx hrem hnanc hls
    simp [stalePRCheckout, hpfx, hrem, hnanc, hls]
  · intro out hpfx hrem hnanc hls hne hpre
    have hpre2 : ¬ shortHash <+: (fields out)[0]?.getD [] := by
      intro hcon
      have h2 := List.isPrefixOf_iff_prefix.mpr hcon
      rw [← List.getD_eq_getElem?_getD] at h2
      rw [hpre] at h2
      exact absurd h2 (by simp)
    simp [stalePRCheckout, hpfx, hrem, hnanc, hls, hne, hpre2]
  · intro out hpfx hrem hnanc hls hne hpre
    have hpre2 : shortHash <+: (fields out)[0]?.getD [] := by
      apply List.isPrefixOf_iff_prefix.mp
      rw [← List.getD_eq_getElem?_getD]
      exact hpre
    simp [stalePRCheckout, hpfx, hrem, hnanc, hls, hne, hpre2]

/-- C9 witness: at concrete states the classifier reports a merged PR, an
updated PR, and stays silent when the remote query fails. -/
theorem c9_stale_pr_witness :
    stalePRCheckout preMerged sFeat ("abc1234".data) ("Bob".data)
        ("main".data) =
      "PR #42 merged (abc1234 by Bob)".data ∧
    stalePRCheckout preUpdated sFeat ("abc1234".data) ("Bob".data)
        ("main".data) =
      "PR #42 updated since checkout (abc1234 by Bob)".data ∧
    stalePRCheckout preOffline sFeat ("abc1234".data) ("Bob".data)
        ("main".data) = [] := by
  refine ⟨?_, ?_, ?_⟩
  · rw [(c9_stale_pr_checkout preMerged sFeat ("abc1234".data) ("Bob".data)
        ("main".data)).2.1 (by decide) (by decide) (by decide)
        (Or.inl (by decide))]
    decide
  · rw [(c9_stale_pr_checkout preUpdated sFeat ("abc1234".data) ("Bob".data)
        ("main".data)).2.2.2.2.1 ("deadbeef\trefs/pull/42/head".data)
        (by decide) (by decide) (by decide) (by decide) (by decide)
        (by decide)]
    decide
  · exact (c9_stale_pr_checkout preOffline sFeat ("abc1234".data)
      ("Bob".data) ("main".data)).2.2.1 (by decide) (by decide) (by decide)
      (by decide)

/-- C1: branch-cleanup classifier priority: per branch at most one result
is produced (entity counts in the Check output are bounded by branch
counts), the four classifiers fire in the order gone, merged, PR, orphan
with evaluation stopping at the first match, and a branch that the merged
set contains never yields the orphan (or PR) result. -/
theorem c1_classifier_priority (env : BranchEnv) (pre : PREnv) :
    (∀ (branches : List BranchInfo) (n : Str), n ≠ [] →
      (branchCheck env pre branches).countP
          (fun r => decide (entityOf r.name = n)) ≤
        branches.countP (fun b => decide (b.name = n))) ∧
    (∀ b : BranchInfo, b.name ≠ env.mainBranch →
      (goneCond b = true →
        ∃ r, checkBranch env pre b = some r ∧
          r.name = mkName nBranchGone b.name) ∧
      (goneCond b = false → env.merged b.name = true →
        ∃ r, checkBranch env pre b = some r ∧
          r.name = mkName nBranchMerged b.name) ∧
      (goneCond b = false → env.merged b.name = false →
        stalePRCheckout pre b.name b.hash b.author env.mainBranch ≠ [] →
        ∃ r, checkBranch env pre b = some r ∧
          r.name = mkName nBranchPr b.name) ∧
      (goneCond b = false → env.merged b.name = false →
        stalePRCheckout pre b.name b.hash b.author env.mainBranch = [] →
        b.upstream = [] → b.author ≠ env.identityName →
        ∃ r, checkBranch env pre b = some r ∧
          r.name = mkName nBranchOrphan b.name)) ∧
    (∀ (b : BranchInfo) (r : Result), env.merged b.name = true →
      checkBranch env pre b = some r →
      r.name ≠ mkName nBranchOrphan b.name ∧
        r.name ≠ mkName nBranchPr b.name) := by
  refine ⟨?_, ?_, ?_⟩
  · intro branches n hn
    unfold branchCheck
    split
    · have h0 : (splitResultName nBranchCleanup).2 = [] := by decide
      have h1 : ¬ (([] : Str) = n) := fun h => hn h.symm
      simp [List.countP_cons, entityOf, h0, h1]
    · exact countP_filterMap_le (checkBranch env pre) _ _
        (fun b r hbr hp => by
          have he := checkBranch_entity hbr
          simp only [decide_eq_true_eq] at hp ⊢
          rw [← he]
          exact hp) branches
  · intro b hb
    refine ⟨?_, ?_, ?_, ?_⟩
    · intro hg
      have hcl : classifyRaw env pre b = some (mkName nBranchGone b.name,
          "upstream deleted (".data ++ b.hash ++ " by ".data ++ b.author ++
            [')']) := by
        unfold classifyRaw
        rw [if_pos hg]
      exact ⟨_, by unfold checkBranch; rw [if_neg hb, hcl]; rfl, rfl⟩
    · intro hg hm
      have hcl : classifyRaw env pre b = some (mkName nBranchMerged b.name,
          "merged into ".data ++ env.mainBranch ++ " (".data ++ b.hash ++
            " by ".data ++ b.author ++ [')']) := by
        unfold classifyRaw
        rw [if_neg (by simp [hg]), if_pos hm]
      exact ⟨_, by unfold checkBranch; rw [if_neg hb, hcl]; rfl, rfl⟩
    · intro hg hm hpr
      have hcl : classifyRaw env pre b = some (mkName nBranchPr b.name,
          stalePRCheckout pre b.name b.hash b.author env.mainBranch) := by
        unfold classifyRaw
        rw [if_neg (by simp [hg]), if_neg (by simp [hm]), if_pos hpr]
      exact ⟨_, by unfold checkBranch; rw [if_neg hb, hcl]; rfl, rfl⟩
    · intro hg hm hpr hup hau
      have hcl : classifyRaw env pre b = some (mkName nBranchOrphan b.name,
          "no upstream, tip by ".data ++ b.author ++ " (".data ++ b.hash ++
            [')']) := by
        unfold classifyRaw
        rw [if_neg (by simp [hg]), if_neg (by simp [hm]),
          if_neg (fun h => h hpr), if_pos ⟨hup, hau⟩]
      exact ⟨_, by unfold checkBranch; rw [if_neg hb, hcl]; rfl, rfl⟩
  · intro b r hm hcb
    obtain ⟨-, nm, hcl, hn, -⟩ := checkBranch_eq_some hcb
    have hgo : mkName nBranchGone b.name ≠ mkName nBranchOrphan b.name :=
      fun hEq => absurd (mkName_left_inj hEq) (by decide)
    have hgp : mkName nBranchGone b.name ≠ mkName nBranchPr b.name :=
      fun hEq => absurd (mkName_left_inj hEq) (by decide)
    have hmo : mkName nBranchMerged b.name ≠ mkName nBranchOrphan b.name :=
      fun hEq => absurd (mkName_left_inj hEq) (by decide)
    have hmp : mkName nBranchMerged b.name ≠ mkName nBranchPr b.name :=
      fun hEq => absurd (mkName_left_inj hEq) (by decide)
    by_cases hg : goneCond b = true
    · have : nm.1 = mkName nBranchGone b.name := by
        unfold classifyRaw at hcl
        rw [if_pos hg] at hcl
        simp only [Option.some.injEq] at hcl
        rw [← hcl]
      rw [hn, this]
      exact ⟨hgo, hgp⟩
    · have : nm.1 = mkName nBranchMerged b.name := by
        unfold classifyRaw at hcl
        rw [if_neg hg, if_pos hm] at hcl
        simp only [Option.some.injEq] at hcl
        rw [← hcl]
      rw [hn, this]
      exact ⟨hmo, hmp⟩

/-- C1 witness: in a concrete repository a gone branch yields exactly the
gone result, and entity counts are bounded by branch counts. -/
theorem c1_classifier_priority_witness :
    (∃ r, checkBranch envBr preNone bGone = some r ∧
      r.name = mkName nBranchGone bGone.name) ∧
    (branchCheck envBr preNone [bGone, bMerged]).countP
        (fun r => decide (entityOf r.name = sG1)) ≤
      ([bGone, bMerged] : List BranchInfo).countP
        (fun b => decide (b.name = sG1)) :=
  ⟨((c1_classifier_priority envBr preNone).2.1 bGone (by decide)).1
      (by decide),
   (c1_classifier_priority envBr preNone).1 [bGone, bMerged] sG1
      (by decide)⟩

/-- C2: the checked-out branch is never deleted by the branch-cleanup Fix
(no delete command is ever issued for it); when it matches a classifier
Check still reports it, but marked non-fixable. -/
theorem c2_current_branch_guard (env : BranchEnv) (pre : PREnv) :
    (∀ (branches : List BranchInfo) (r : Result),
      r ∈ branchCheck env pre branches →
      entityOf r.name = env.currentBranch → r.fixable = false) ∧
    (∀ (branches : List BranchInfo) (delOk : Str → Bool),
      env.currentBranch ∉
        (branchFixRun delOk (branchCheck env pre branches)).2) ∧
    (∀ b : BranchInfo, b.name = env.currentBranch →
      b.name ≠ env.mainBranch → (classifyRaw env pre b).isSome = true →
      ∃ r, checkBranch env pre b = some r ∧ r.fixable = false) := by
  refine ⟨?_, ?_, ?_⟩
  · intro branches r hr he
    rcases branchCheck_mem hr with h1 | ⟨b, -, hcb⟩
    · rw [h1]
    · have hent := checkBranch_entity hcb
      have hfix := checkBranch_fixable hcb
      have hbn : b.name = env.currentBranch := by rw [← hent, he]
      rw [hfix]
      simp [hbn]
  · intro branches delOk hmem
    obtain ⟨-, r, hr, hfix, hent⟩ :=
      branchFixRun_dels (branchCheck env pre branches) _ hmem
    rcases branchCheck_mem hr with h1 | ⟨b, -, hcb⟩
    · rw [h1] at hfix
      exact absurd hfix (by simp)
    · have hent2 := checkBranch_entity hcb
      have hfix2 := checkBranch_fixable hcb
      have hbn : b.name = env.currentBranch := by rw [← hent2, hent]
      rw [hfix2] at hfix
      simp [hbn] at hfix
  · intro b hcur hmain hsome
    cases hcl : classifyRaw env pre b with
    | none => rw [hcl] at hsome; exact absurd hsome (by simp)
    | some nm =>
      refine ⟨_, by unfold checkBranch; rw [if_neg hmain, hcl]; rfl, ?_⟩
      simp [hcur]

/-- C2 witness: the concrete checked-out branch matches the gone
classifier and is reported non-fixable; its name never appears among the
issued delete commands. -/
theorem c2_current_branch_guard_witness :
    (∃ r, checkBranch envBr preNone bCur = some r ∧ r.fixable = false) ∧
    sCur ∉ (branchFixRun (fun _ => true)
      (branchCheck envBr preNone [bGone, bMerged, bCur])).2 :=
  ⟨(c2_current_branch_guard envBr preNone).2.2 bCur rfl (by decide)
      (by decide),
   (c2_current_branch_guard envBr preNone).2.1 [bGone, bMerged, bCur]
      (fun _ => true)⟩

/-- C3: every rule's Fix maps its input pointwise: each entry comes out
either unchanged or replaced by a fix-status result carrying the same
name, and replacement happens only when the remediation command
succeeded; a failed command leaves the original entry in place.  Stated
for the branch-cleanup, identity, staleness, unpushed, submodule,
protocol, attribution and remote rules. -/
theorem c3_fix_pass_through :
    (∀ (delOk : Str → Bool) (rs : List Result),
      List.Forall₂ (fun a b => b = a ∨
          (b.status = Status.fix ∧ b.name = a.name ∧ a.fixable = true ∧
            delOk (entityOf a.name) = true))
        rs (branchFixRun delOk rs).1) ∧
    (∀ (work : Bool) (idc : IdentityConfig) (setOk : Str → Bool)
        (st : IdSt) (rs : List Result),
      List.Forall₂ (fun a b => b = a ∨
          (b.status = Status.fix ∧ b.name = a.name ∧
            a.status = Status.fail ∧ a.fixable = true ∧
            ((a.name = nIdentityName ∧ setOk kUserName = true) ∨
              (a.name = nIdentityEmail ∧ setOk kUserEmail = true))))
        rs (identityFix work idc setOk st rs).2) ∧
    (∀ rs : List Result, stalenessFixRun rs = rs) ∧
    (∀ rs : List Result, unpushedFixRun rs = rs) ∧
    (∀ (updateOk : Bool) (rs : List Result),
      List.Forall₂ (fun a b => b = a ∨
          (b.status = Status.fix ∧ b.name = a.name ∧ a.fixable = true ∧
            updateOk = true))
        rs (submoduleFixRun updateOk rs)) ∧
    (∀ (env : ProtoEnv) (rs : List Result),
      List.Forall₂ (fun a b => b = a ∨
          (b.status = Status.fix ∧ b.name = a.name ∧
            a.status = Status.fail ∧ a.fixable = true ∧
            env.setURLOk ((a.name.drop (nRemoteProtocol.length + 1)).dropLast)
              = true))
        rs (protocolFix env rs)) ∧
    (∀ (ensureOk excludeOk : Bool) (rs : List Result),
      List.Forall₂ (fun a b => b = a ∨
          (b.status = Status.fix ∧ b.name = a.name ∧ a.fixable = true ∧
            ((a.name = nClaudeAttribution ∧ ensureOk = true) ∨
              (a.name = nClaudeExclude ∧ excludeOk = true))))
        rs (attributionFix ensureOk excludeOk rs)) ∧
    (∀ (st : RepoSt) (setOk unsetOk : Str → Bool) (rs : List Result),
      List.Forall₂ (fun a b => b = a ∨
          (b.status = Status.fix ∧ b.name = a.name ∧
            a.status = Status.fail ∧ a.fixable = true ∧
            remoteFixSuccess st setOk unsetOk a = true))
        rs (remoteFix st setOk unsetOk rs)) := by
  refine ⟨?_, ?_, fun _ => rfl, fun _ => rfl, ?_, ?_, ?_, ?_⟩
  · intro delOk rs
    induction rs with
    | nil => exact List.Forall₂.nil
    | cons r rest ih =>
      unfold branchFixRun
      by_cases hf : r.fixable
      · rw [if_neg (by simp [hf])]
        by_cases hp : entityOf r.name = []
        · rw [if_pos hp]
          exact List.Forall₂.cons (Or.inl rfl) ih
        · rw [if_neg hp]
          by_cases hd : delOk (entityOf r.name) = true
          · rw [if_pos hd]
            exact List.Forall₂.cons (Or.inr ⟨rfl, rfl, hf, hd⟩) ih
          · rw [if_neg hd]
            exact List.Forall₂.cons (Or.inl rfl) ih
      · rw [if_pos (by simp [hf])]
        exact List.Forall₂.cons (Or.inl rfl) ih
  · intro work idc setOk st rs
    induction rs generalizing st with
    | nil => exact List.Forall₂.nil
    | cons r rest ih =>
      unfold identityFix
      by_cases hc : r.status ≠ Status.fail ∨ ¬ r.fixable
      · rw [if_pos hc]
        exact List.Forall₂.cons (Or.inl rfl) (ih st)
      · push_neg at hc
        rw [if_neg (by push_neg; exact hc)]
        by_cases h1 : r.name = nIdentityName
        · rw [if_pos h1]
          by_cases hso : setOk kUserName = true
          · rw [if_pos hso]
            exact List.Forall₂.cons
              (Or.inr ⟨rfl, rfl, hc.1, hc.2, Or.inl ⟨h1, hso⟩⟩) (ih _)
          · rw [if_neg hso]
            exact List.Forall₂.cons (Or.inl rfl) (ih st)
        · rw [if_neg h1]
          by_cases h2 : r.name = nIdentityEmail
          · rw [if_pos h2]
            by_cases hso : setOk kUserEmail = true
            · rw [if_pos hso]
              exact List.Forall₂.cons
                (Or.inr ⟨rfl, rfl, hc.1, hc.2, Or.inr ⟨h2, hso⟩⟩) (ih _)
            · rw [if_neg hso]
              exact List.Forall₂.cons (Or.inl rfl) (ih st)
          · rw [if_neg h2]
            exact List.Forall₂.cons (Or.inl rfl) (ih st)
  · intro updateOk rs
    unfold submoduleFixRun
    split
    · refine forall2_self _ ?_ rs
      intro a
      exact Or.inl rfl
    · refine forall2_map_self _ _ ?_ rs
      intro a
      unfold submoduleFixEntry
      by_cases hf : a.fixable
      · rw [if_neg (by simp [hf])]
        by_cases hu : updateOk = true
        · rw [if_pos hu]
          exact Or.inr ⟨rfl, rfl, hf, hu⟩
        · rw [if_neg hu]
          exact Or.inl rfl
      · rw [if_pos (by simp [hf])]
        exact Or.inl rfl
  · intro env rs
    refine forall2_map_self _ _ ?_ rs
    intro a
    unfold protocolFixEntry
    by_cases hc : a.status ≠ Status.fail ∨ ¬ a.fixable
    · rw [if_pos hc]
      exact Or.inl rfl
    · push_neg at hc
      rw [if_neg (by push_neg; exact hc)]
      by_cases hcv : convertGitHubURL
          (env.remoteURL ((a.name.drop (nRemoteProtocol.length + 1)).dropLast))
          env.protocol = []
      · rw [if_pos hcv]
        exact Or.inl rfl
      · rw [if_neg hcv]
        by_cases hso : env.setURLOk
            ((a.name.drop (nRemoteProtocol.length + 1)).dropLast) = true
        · rw [if_pos hso]
          exact Or.inr ⟨rfl, rfl, hc.1, hc.2, hso⟩
        · rw [if_neg hso]
          exact Or.inl rfl
  · intro ensureOk excludeOk rs
    refine forall2_map_self _ _ ?_ rs
    intro a
    unfold attributionFixEntry
    by_cases hf : ¬ a.fixable = true
    · rw [if_pos hf]
      exact Or.inl rfl
    · rw [if_neg hf]
      push_neg at hf
      by_cases h1 : a.name = nClaudeAttribution
      · rw [if_pos h1]
        by_cases he : ensureOk = true
        · rw [if_pos he]
          exact Or.inr ⟨rfl, rfl, hf, Or.inl ⟨h1, he⟩⟩
        · rw [if_neg he]
          exact Or.inl rfl
      · rw [if_neg h1]
        by_cases h2 : a.name = nClaudeExclude
        · rw [if_pos h2]
          by_cases he : excludeOk = true
          · rw [if_pos he]
            exact Or.inr ⟨rfl, rfl, hf, Or.inr ⟨h2, he⟩⟩
          · rw [if_neg he]
            exact Or.inl rfl
        · rw [if_neg h2]
          exact Or.inl rfl
  · intro st setOk unsetOk rs
    refine forall2_map_self _ _ ?_ rs
    intro a
    unfold remoteFixEntry remoteFixSuccess
    by_cases hc : a.status ≠ Status.fail ∨ ¬ a.fixable
    · rw [if_pos hc]
      exact Or.inl rfl
    · push_neg at hc
      rw [if_neg (by push_neg; exact hc)]
      by_cases h1 : a.name = nRemoteTracking ∧ st.mainBranch ≠ []
      · rw [if_pos h1, if_pos h1]
        by_cases hup : upstreamFor st = []
        · rw [if_pos hup]
          exact Or.inl rfl
        · rw [if_neg hup]
          by_cases hso : (setOk (kBranchRemote st.mainBranch) &&
              setOk (kBranchMerge st.mainBranch)) = true
          · rw [if_pos hso]
            exact Or.inr ⟨rfl, rfl, hc.1, hc.2, hso⟩
          · rw [if_neg hso]
            exact Or.inl rfl
      · rw [if_neg h1, if_neg h1]
        by_cases h2 : a.name = nRemotePushGuard ∧ st.mainBranch ≠ []
        · rw [if_pos h2, if_pos h2]
          by_cases hso : setOk (kBranchPush st.mainBranch) = true
          · rw [if_pos hso]
            exact Or.inr ⟨rfl, rfl, hc.1, hc.2, hso⟩
          · rw [if_neg hso]
            exact Or.inl rfl
        · rw [if_neg h2, if_neg h2]
          by_cases h3 : a.name = nGhResolved
          · rw [if_pos h3, if_pos h3]
            by_cases htg : ghResolvedTarget st = [] ∨
                ghResolvedTarget st = sOrigin
            · rw [if_pos htg]
              exact Or.inl rfl
            · rw [if_neg htg]
              by_cases hso : setOk (kResolved (ghResolvedTarget st)) = true
              · rw [if_pos hso]
                exact Or.inr ⟨rfl, rfl, hc.1, hc.2, hso⟩
              · rw [if_neg hso]
                exact Or.inl rfl
          · rw [if_neg h3, if_neg h3]
            by_cases h4 : (nGhResolved ++ ['[']).isPrefixOf a.name = true
            · rw [if_pos h4, if_pos h4]
              by_cases huo : unsetOk (kResolved
                  ((a.name.drop (nGhResolved.length + 1)).dropLast)) = true
              · rw [if_pos huo]
                exact Or.inr ⟨rfl, rfl, hc.1, hc.2, huo⟩
              · rw [if_neg huo]
                exact Or.inl rfl
            · rw [if_neg h4, if_neg h4]
              exact Or.inl rfl

theorem ruleOf_mkName {rule : Str} (entity : Str) (h : '[' ∉ rule) :
    ruleOf (mkName rule entity) = rule := by
  unfold ruleOf
  rw [splitResultName_mkName entity h]

theorem setCfg_same (g : Str → Str) (k v : Str) : setCfg g k v k = v := by
  unfold setCfg
  rw [if_pos rfl]

theorem setCfg_other (g : Str → Str) {k x : Str} (v : Str) (h : x ≠ k) :
    setCfg g k v x = g x := by
  unfold setCfg
  rw [if_neg h]

theorem kBranchRemote_ne_ghParent (m : Str) : kBranchRemote m ≠ kGhParent := by
  intro h
  have h2 := congrArg List.head? h
  rw [show (kBranchRemote m).head? = some 'b' from rfl] at h2
  exact absurd h2 (by decide)

theorem kBranchMerge_ne_ghParent (m : Str) : kBranchMerge m ≠ kGhParent := by
  intro h
  have h2 := congrArg List.head? h
  rw [show (kBranchMerge m).head? = some 'b' from rfl] at h2
  exact absurd h2 (by decide)

theorem kBranchPush_ne_ghParent (m : Str) : kBranchPush m ≠ kGhParent := by
  intro h
  have h2 := congrArg List.head? h
  rw [show (kBranchPush m).head? = some 'b' from rfl] at h2
  exact absurd h2 (by decide)

theorem kResolved_ne_ghParent (n : Str) : kResolved n ≠ kGhParent := by
  intro h
  have h2 := congrArg List.getLast? h
  unfold kResolved at h2
  rw [List.getLast?_append] at h2
  rw [show (".gh-resolved".data : Str).getLast? = some 'd' from rfl] at h2
  rw [show ∀ x : Option Char, (some 'd').or x = some 'd' from fun _ => rfl]
    at h2
  exact absurd h2 (by decide)

theorem kBranchRemote_ne_merge (m : Str) :
    kBranchRemote m ≠ kBranchMerge m := by
  intro h
  have h2 := congrArg List.length h
  simp [kBranchRemote, kBranchMerge] at h2

theorem forkParentRemoteGo_congr (st : RepoSt) (g : Str → Str)
    (h : g kGhParent = st.gitCfg kGhParent) :
    forkParentRemoteGo { st with gitCfg := g } = forkParentRemoteGo st := by
  simp only [forkParentRemoteGo, forkParentVal, h]

theorem upstreamFor_congr (st : RepoSt) (g : Str → Str)
    (h : g kGhParent = st.gitCfg kGhParent) :
    upstreamFor { st with gitCfg := g } = upstreamFor st := by
  simp only [upstreamFor, forkParentRemoteGo_congr st g h]

theorem trackingResult_ok {st : RepoSt}
    (h : st.gitCfg (kBranchRemote st.mainBranch) = upstreamFor st) :
    (trackingResult st).status = Status.ok := by
  unfold trackingResult
  by_cases hup : upstreamFor st = []
  · rw [if_pos hup]
  · rw [if_neg hup, if_pos h]

theorem pushGuardResult_ok {st : RepoSt}
    (h : st.gitCfg (kBranchPush st.mainBranch) = sNoPush) :
    (pushGuardResult st).status = Status.ok := by
  unfold pushGuardResult
  rw [if_pos h]

theorem ghResolvedMain_ok {st : RepoSt} {p : Str}
    (h : st.gitCfg (kResolved p) = sBase) :
    (ghResolvedMain st p).status = Status.ok := by
  unfold ghResolvedMain
  rw [if_pos h]

theorem map_idem {α : Type} (f : α → α) (h : ∀ a, f (f a) = f a)
    (l : List α) : (l.map f).map f = l.map f := by
  induction l with
  | nil => rfl
  | cons x xs ih => simp only [List.map_cons, h, ih]

theorem remoteFixEntry_pass {st : RepoSt} {setOk unsetOk : Str → Bool}
    {r : Result} (h : r.status ≠ Status.fail ∨ ¬ r.fixable) :
    remoteFixEntry st setOk unsetOk r = r := by
  unfold remoteFixEntry
  rw [if_pos h]

theorem remoteFixEntry_cases (st : RepoSt) (setOk unsetOk : Str → Bool)
    (r : Result) :
    remoteFixEntry st setOk unsetOk r = r ∨
      (remoteFixEntry st setOk unsetOk r).status = Status.fix := by
  unfold remoteFixEntry
  repeat' split
  all_goals first
    | exact Or.inl rfl
    | exact Or.inr rfl

theorem remoteFixEntry_idem (st : RepoSt) (setOk unsetOk : Str → Bool)
    (r : Result) :
    remoteFixEntry st setOk unsetOk (remoteFixEntry st setOk unsetOk r) =
      remoteFixEntry st setOk unsetOk r := by
  rcases remoteFixEntry_cases st setOk unsetOk r with h | h
  · rw [h]
    exact h
  · exact remoteFixEntry_pass (Or.inl (by rw [h]; decide))

theorem protocolFixEntry_pass {env : ProtoEnv} {r : Result}
    (h : r.status ≠ Status.fail ∨ ¬ r.fixable) :
    protocolFixEntry env r = r := by
  unfold protocolFixEntry
  rw [if_pos h]

theorem protocolFixEntry_cases (env : ProtoEnv) (r : Result) :
    protocolFixEntry env r = r ∨
      (protocolFixEntry env r).status = Status.fix := by
  unfold protocolFixEntry
  repeat' split
  all_goals first
    | exact Or.inl rfl
    | exact Or.inr rfl

theorem protocolFixEntry_idem (env : ProtoEnv) (r : Result) :
    protocolFixEntry env (protocolFixEntry env r) = protocolFixEntry env r := by
  rcases protocolFixEntry_cases env r with h | h
  · rw [h]
    exact h
  · exact protocolFixEntry_pass (Or.inl (by rw [h]; decide))

theorem attributionFixEntry_pass {ensureOk excludeOk : Bool} {r : Result}
    (h : ¬ r.fixable = true) :
    attributionFixEntry ensureOk excludeOk r = r := by
  unfold attributionFixEntry
  rw [if_pos h]

theorem attributionFixEntry_cases (ensureOk excludeOk : Bool) (r : Result) :
    attributionFixEntry ensureOk excludeOk r = r ∨
      (attributionFixEntry ensureOk excludeOk r).fixable = false := by
  unfold attributionFixEntry
  repeat' split
  all_goals first
    | exact Or.inl rfl
    | exact Or.inr rfl

theorem attributionFixEntry_idem (ensureOk excludeOk : Bool) (r : Result) :
    attributionFixEntry ensureOk excludeOk
        (attributionFixEntry ensureOk excludeOk r) =
      attributionFixEntry ensureOk excludeOk r := by
  rcases attributionFixEntry_cases ensureOk excludeOk r with h | h
  · rw [h]
    exact h
  · exact attributionFixEntry_pass (by rw [h]; decide)

theorem submoduleFixEntry_false (r : Result) :
    submoduleFixEntry false r = r := by
  unfold submoduleFixEntry
  split
  · rfl
  · rfl

theorem submoduleFixEntry_pass {updateOk : Bool} {r : Result}
    (h : ¬ r.fixable = true) : submoduleFixEntry updateOk r = r := by
  unfold submoduleFixEntry
  rw [if_pos h]

theorem submoduleFixRun_false (rs : List Result) :
    submoduleFixRun false rs = rs := by
  unfold submoduleFixRun
  split
  · rfl
  · exact (List.map_congr_left
      (fun r _ => submoduleFixEntry_false r)).trans (List.map_id rs)

theorem submoduleFixPaths_after (rs : List Result) :
    submoduleFixPaths (rs.map (submoduleFixEntry true)) = [] := by
  unfold submoduleFixPaths
  rw [List.filterMap_eq_nil_iff]
  intro a ha
  obtain ⟨b, hb, hfb⟩ := List.mem_map.mp ha
  rw [← hfb]
  by_cases hfix : b.fixable = true
  · have hrec : submoduleFixEntry true b =
        ⟨b.name, Status.fix, "initialized ".data ++ entityOf b.name,
          [], false⟩ := by
      unfold submoduleFixEntry
      rw [if_neg (by simp [hfix]), if_pos rfl]
    rw [hrec]
    simp
  · rw [submoduleFixEntry_pass hfix]
    exact if_neg hfix

theorem submoduleFixRun_idem (updateOk : Bool) (rs : List Result) :
    submoduleFixRun updateOk (submoduleFixRun updateOk rs) =
      submoduleFixRun updateOk rs := by
  cases updateOk with
  | false => rw [submoduleFixRun_false]
  | true =>
    by_cases h : submoduleFixPaths rs = []
    · have h1 : submoduleFixRun true rs = rs := by
        unfold submoduleFixRun
        rw [if_pos h]
      rw [h1]
      exact h1
    · have h1 : submoduleFixRun true rs =
          rs.map (submoduleFixEntry true) := by
        unfold submoduleFixRun
        rw [if_neg h]
      rw [h1]
      unfold submoduleFixRun
      rw [if_pos (submoduleFixPaths_after rs)]

theorem protocolRemote_entity {env : ProtoEnv} {n : Str} {r : Result}
    (h : protocolRemote env n = some r) : entityOf r.name = n := by
  unfold protocolRemote at h
  split at h
  · exact absurd h (by simp)
  · split at h
    · injection h with h2
      rw [← h2]
      exact entityOf_mkName n (by decide)
    · injection h with h2
      rw [← h2]
      exact entityOf_mkName n (by decide)

theorem checkSubmodule_rule {env : SubEnv} {path : Str} {pfx : Char}
    {r : Result} (hpfx : pfx ≠ '-') (hr : r ∈ checkSubmodule env path pfx) :
    ruleOf r.name = nSubSync ∨ ruleOf r.name = nSubUncommitted ∨
      ruleOf r.name = nSubUntracked ∨ ruleOf r.name = nSubUnpushed := by
  unfold checkSubmodule at hr
  rw [if_neg hpfx] at hr
  rcases List.mem_append.mp hr with h | h
  · rcases List.mem_append.mp h with h | h
    · split at h
      · simp only [List.mem_singleton] at h
        rw [h]
        exact Or.inl (ruleOf_mkName path (by decide))
      · simp at h
    · cases hm : env.porcelainIn path with
      | none => simp only [hm] at h; simp at h
      | some p =>
        simp only [hm] at h
        by_cases hp : p = []
        · rw [if_pos hp] at h
          simp at h
        · rw [if_neg hp] at h
          rcases List.mem_append.mp h with h | h
          · split at h
            · simp only [List.mem_singleton] at h
              rw [h]
              exact Or.inr (Or.inl (ruleOf_mkName path (by decide)))
            · simp at h
          · split at h
            · simp only [List.mem_singleton] at h
              rw [h]
              exact Or.inr (Or.inr (Or.inl (ruleOf_mkName path (by decide))))
            · simp at h
  · cases hm : env.logUpstreamIn path with
    | none => simp only [hm] at h; simp at h
    | some u =>
      simp only [hm] at h
      by_cases hu : u = []
      · rw [if_pos hu] at h
        simp at h
      · rw [if_neg hu] at h
        simp only [List.mem_singleton] at h
        rw [h]
        exact Or.inr (Or.inr (Or.inr (ruleOf_mkName path (by decide))))

/-- C4: Fix is idempotent for every fixable rule.  Identity: after a
(successful) Fix, Check on the updated configuration reports OK for
every entry, and a second Fix leaves the configuration untouched.
Branch cleanup: after Fix deletes a branch, Check on the remaining
branches reports nothing for that entity, and a second Fix over the
rewritten results issues no delete command.  The staleness and unpushed
fixes mutate nothing by construction.  Remote: after each successful
remediation write the corresponding re-check (tracking, push-guard,
gh-resolved main, stale gh-resolved) is OK respectively silent, and the
Fix rewrite itself is idempotent.  Protocol: a converted URL carries the
wanted protocol, a compliant remote produces no result on re-check, and
the Fix rewrite is idempotent.  Attribution: after a successful
ensureAttribution the settings file holds an empty attribution and the
re-check is OK, after a successful ensureExcludePatterns every pattern
is present and the re-check is OK, and the Fix rewrite is idempotent.
Submodule: once no submodule reports the uninitialized status prefix the
re-check emits no submodule/init entry, and the Fix rewrite is
idempotent. -/
theorem c4_fix_idempotent :
    (∀ (work : Bool) (idc : IdentityConfig) (st : IdSt),
      ∀ r ∈ identityCheck work idc
          (identityFix work idc (fun _ => true) st
            (identityCheck work idc st)).1,
        r.status = Status.ok) ∧
    (∀ (work : Bool) (idc : IdentityConfig) (st : IdSt) (rs : List Result),
      (identityFix work idc (fun _ => true)
          (identityFix work idc (fun _ => true) st rs).1
          (identityFix work idc (fun _ => true) st rs).2).1 =
        (identityFix work idc (fun _ => true) st rs).1) ∧
    (∀ (env : BranchEnv) (pre : PREnv) (branches : List BranchInfo)
        (b : Str),
      b ∈ (branchFixRun (fun _ => true) (branchCheck env pre branches)).2 →
      ∀ r ∈ branchCheck env pre
          (branches.filter (fun x => decide (x.name ≠ b))),
        entityOf r.name ≠ b) ∧
    (∀ (delOk : Str → Bool) (rs : List Result),
      (branchFixRun delOk ((branchFixRun (fun _ => true) rs).1)).2 = []) ∧
    (∀ rs : List Result,
      stalenessFixRun (stalenessFixRun rs) = stalenessFixRun rs ∧
        unpushedFixRun (unpushedFixRun rs) = unpushedFixRun rs) ∧
    (∀ st : RepoSt, st.mainBranch ≠ [] → upstreamFor st ≠ [] →
      (trackingResult { st with
          gitCfg := setCfg (setCfg st.gitCfg (kBranchRemote st.mainBranch)
              (upstreamFor st)) (kBranchMerge st.mainBranch)
            (sRefsHeads ++ st.mainBranch) }).status = Status.ok) ∧
    (∀ st : RepoSt,
      (pushGuardResult { st with
          gitCfg := setCfg st.gitCfg (kBranchPush st.mainBranch)
            sNoPush }).status = Status.ok) ∧
    (∀ st : RepoSt, forkParentRemoteGo st ≠ [] →
      (ghResolvedMain
          { st with
            gitCfg := setCfg st.gitCfg (kResolved (ghResolvedTarget st))
              sBase }
          (forkParentRemoteGo
            { st with
              gitCfg := setCfg st.gitCfg (kResolved (ghResolvedTarget st))
                sBase })).status = Status.ok) ∧
    (∀ (st : RepoSt) (parentRemote name : Str),
      ghResolvedStale
          { st with gitCfg := setCfg st.gitCfg (kResolved name) [] }
          parentRemote name = none) ∧
    (∀ (st : RepoSt) (setOk unsetOk : Str → Bool) (rs : List Result),
      remoteFix st setOk unsetOk (remoteFix st setOk unsetOk rs) =
        remoteFix st setOk unsetOk rs) ∧
    (∀ u target : Str, convertGitHubURL u target ≠ [] →
      urlProtocol (convertGitHubURL u target) = target) ∧
    (∀ (env : ProtoEnv) (n : Str), n ≠ [] →
      urlProtocol (env.remoteURL n) = env.protocol →
      ∀ r ∈ protocolCheck env, entityOf r.name ≠ n) ∧
    (∀ (env : ProtoEnv) (rs : List Result),
      protocolFix env (protocolFix env rs) = protocolFix env rs) ∧
    (∀ env : AttrEnv, env.settings = AttrObs.attr [] [] →
      ∀ r ∈ attributionCheck env, r.name = nClaudeAttribution →
        r.status = Status.ok) ∧
    (∀ env : AttrEnv,
      (∀ p ∈ claudeExcludePatternsS, p ∈ env.excludeLines) →
      ∀ r ∈ attributionCheck env, r.name = nClaudeExclude →
        r.status = Status.ok) ∧
    (∀ (ensureOk excludeOk : Bool) (rs : List Result),
      attributionFix ensureOk excludeOk
          (attributionFix ensureOk excludeOk rs) =
        attributionFix ensureOk excludeOk rs) ∧
    (∀ (env : SubEnv) (out : Str), env.statusOut = some out →
      (∀ pp ∈ submoduleStatusParse out, pp.2 ≠ '-') →
      ∀ r ∈ submoduleCheck env, ruleOf r.name ≠ nSubInit) ∧
    (∀ (updateOk : Bool) (rs : List Result),
      submoduleFixRun updateOk (submoduleFixRun updateOk rs) =
        submoduleFixRun updateOk rs) := by
  refine ⟨?_, ?_, ?_, ?_, fun _ => ⟨rfl, rfl⟩, ?_, ?_, ?_, ?_, ?_, ?_, ?_,
    ?_, ?_, ?_, ?_, ?_, ?_⟩
  · exact identityFix_check_ok
  · intro work idc st rs
    exact congrArg Prod.fst
      (identityFix_id_of work idc (fun _ => true) _ _
        (identityFix_out_safe work idc st rs))
  · intro env pre branches b hmem r hrm
    obtain ⟨hbne, -⟩ :=
      branchFixRun_dels (branchCheck env pre branches) b hmem
    rcases branchCheck_mem hrm with h1 | ⟨x, hx, hcx⟩
    · rw [h1]
      intro hcon
      rw [show entityOf nBranchCleanup = [] from by decide] at hcon
      exact hbne hcon.symm
    · rw [checkBranch_entity hcx]
      have hp := (List.mem_filter.mp hx).2
      simpa using hp
  · intro delOk rs
    exact branchFixRun_dels_nil _ branchFixRun_out_fixable
  · intro st hmain hup
    have hg : setCfg
        (setCfg st.gitCfg (kBranchRemote st.mainBranch) (upstreamFor st))
        (kBranchMerge st.mainBranch) (sRefsHeads ++ st.mainBranch)
        kGhParent = st.gitCfg kGhParent := by
      rw [setCfg_other _ _ (Ne.symm (kBranchMerge_ne_ghParent _)),
        setCfg_other _ _ (Ne.symm (kBranchRemote_ne_ghParent _))]
    have hup2 := upstreamFor_congr st _ hg
    refine trackingResult_ok ?_
    show setCfg
        (setCfg st.gitCfg (kBranchRemote st.mainBranch) (upstreamFor st))
        (kBranchMerge st.mainBranch) (sRefsHeads ++ st.mainBranch)
        (kBranchRemote st.mainBranch) = _
    rw [setCfg_other _ _ (kBranchRemote_ne_merge _), setCfg_same, hup2]
  · intro st
    refine pushGuardResult_ok ?_
    show setCfg st.gitCfg (kBranchPush st.mainBranch) sNoPush
        (kBranchPush st.mainBranch) = sNoPush
    exact setCfg_same _ _ _
  · intro st hfp
    have htgt : ghResolvedTarget st = forkParentRemoteGo st := by
      unfold ghResolvedTarget
      rw [if_neg (fun hc => hfp hc.1)]
    have hg : setCfg st.gitCfg (kResolved (ghResolvedTarget st)) sBase
        kGhParent = st.gitCfg kGhParent :=
      setCfg_other _ _ (Ne.symm (kResolved_ne_ghParent _))
    rw [forkParentRemoteGo_congr st _ hg]
    refine ghResolvedMain_ok ?_
    show setCfg st.gitCfg (kResolved (ghResolvedTarget st)) sBase
        (kResolved (forkParentRemoteGo st)) = sBase
    rw [← htgt]
    exact setCfg_same _ _ _
  · intro st parentRemote name
    unfold ghResolvedStale
    by_cases h1 : name = parentRemote
    · rw [if_pos h1]
    · rw [if_neg h1]
      rw [if_neg (fun hc => hc (setCfg_same st.gitCfg (kResolved name) []))]
  · intro st setOk unsetOk rs
    unfold remoteFix
    exact map_idem _ (remoteFixEntry_idem st setOk unsetOk) rs
  · intro u target h
    unfold convertGitHubURL at h ⊢
    by_cases h1 : target = "ssh".data
    · rw [if_pos h1] at h ⊢
      by_cases h2 : sHttpsPfx.isPrefixOf u = true
      · rw [if_pos h2, h1]
        exact rfl
      · rw [if_neg h2] at h
        exact absurd rfl h
    · rw [if_neg h1] at h ⊢
      by_cases h3 : target = "https".data
      · rw [if_pos h3] at h ⊢
        by_cases h2 : sSshPfx.isPrefixOf u = true
        · rw [if_pos h2, h3]
          exact rfl
        · rw [if_neg h2] at h
          exact absurd rfl h
      · rw [if_neg h3] at h
        exact absurd rfl h
  · intro env n hn hok r hr
    unfold protocolCheck at hr
    by_cases hp : env.protocol = []
    · rw [if_pos hp] at hr
      exact absurd hr (by simp)
    · rw [if_neg hp] at hr
      by_cases hrm : env.remotes = []
      · rw [if_pos hrm] at hr
        exact absurd hr (by simp)
      · rw [if_neg hrm] at hr
        by_cases hfm : env.remotes.filterMap (protocolRemote env) = []
        · rw [if_pos hfm] at hr
          simp only [List.mem_singleton] at hr
          rw [hr]
          rw [show entityOf nRemoteProtocol = [] from by decide]
          exact fun hc => hn hc.symm
        · rw [if_neg hfm] at hr
          obtain ⟨m, hm, hpr⟩ := List.mem_filterMap.mp hr
          rw [protocolRemote_entity hpr]
          intro hc
          rw [hc] at hpr
          unfold protocolRemote at hpr
          rw [if_pos hok] at hpr
          exact absurd hpr (by simp)
  · intro env rs
    unfold protocolFix
    exact map_idem _ (protocolFixEntry_idem env) rs
  · intro env hset r hr hname
    unfold attributionCheck at hr
    by_cases hw : ¬ env.work = true
    · rw [if_pos hw] at hr
      exact absurd hr (by simp)
    · rw [if_neg hw] at hr
      simp only [List.mem_cons, List.not_mem_nil, or_false] at hr
      rcases hr with hr | hr
      · rw [hr, hset]
        decide
      · have hnm : (excludeResult env.excludeLines).name = nClaudeExclude := by
          unfold excludeResult
          split
          · rfl
          · rfl
        rw [hr, hnm] at hname
        exact absurd hname (by decide)
  · intro env hmem r hr hname
    unfold attributionCheck at hr
    by_cases hw : ¬ env.work = true
    · rw [if_pos hw] at hr
      exact absurd hr (by simp)
    · rw [if_neg hw] at hr
      simp only [List.mem_cons, List.not_mem_nil, or_false] at hr
      rcases hr with hr | hr
      · have hnm : (attributionResult env.settings).name =
            nClaudeAttribution := by
          cases env.settings <;> simp [attributionResult, apply_ite]
        rw [hr, hnm] at hname
        exact absurd hname (by decide)
      · have hfil : claudeExcludePatternsS.filter
            (fun p => decide (p ∉ env.excludeLines)) = [] := by
          rw [List.filter_eq_nil_iff]
          intro p hp
          simp [hmem p hp]
        rw [hr]
        unfold excludeResult
        rw [if_neg (fun hc => hc hfil)]
  · intro ensureOk excludeOk rs
    unfold attributionFix
    exact map_idem _ (attributionFixEntry_idem ensureOk excludeOk) rs
  · intro env out hout hpp r hr
    unfold submoduleCheck at hr
    by_cases hg : ¬ env.hasGitmodules = true
    · rw [if_pos hg] at hr
      exact absurd hr (by simp)
    · rw [if_neg hg] at hr
      simp only [hout] at hr
      by_cases hparse : submoduleStatusParse out = []
      · rw [if_pos hparse] at hr
        exact absurd hr (by simp)
      · rw [if_neg hparse] at hr
        obtain ⟨pp, hppmem, hrmem⟩ := List.mem_flatMap.mp hr
        have hpfx := hpp pp hppmem
        rcases checkSubmodule_rule hpfx hrmem with h | h | h | h <;>
          rw [h] <;> decide
  · exact submoduleFixRun_idem

/-- C4 witness: in the concrete repository the re-check after a
successful identity fix reports OK; after deleting the gone branch the
re-check reports nothing for it; after the tracking fix writes both
config keys the tracking re-check is OK; a converted GitHub URL carries
the wanted protocol; and after a successful attribution fix the
attribution re-check is OK. -/
theorem c4_fix_idempotent_witness :
    resIdName.status = Status.ok ∧ entityOf resMergedW.name ≠ sG1 ∧
    (trackingResult { stFix with
        gitCfg := setCfg (setCfg stFix.gitCfg
            (kBranchRemote stFix.mainBranch) (upstreamFor stFix))
          (kBranchMerge stFix.mainBranch)
          (sRefsHeads ++ stFix.mainBranch) }).status = Status.ok ∧
    urlProtocol (convertGitHubURL "https://github.com/a/b.git".data
      "ssh".data) = "ssh".data ∧
    (attributionResult (AttrObs.attr [] [])).status = Status.ok :=
  ⟨c4_fix_idempotent.1 true idcW idStW resIdName (by decide),
   c4_fix_idempotent.2.2.1 envBr preNone [bGone, bMerged, bCur] sG1
     (by decide) resMergedW (by decide),
   c4_fix_idempotent.2.2.2.2.2.1 stFix (by decide) (by decide),
   c4_fix_idempotent.2.2.2.2.2.2.2.2.2.2.1 "https://github.com/a/b.git".data
     "ssh".data (by decide),
   c4_fix_idempotent.2.2.2.2.2.2.2.2.2.2.2.2.2.1 attrEnvFixed rfl
     (attributionResult (AttrObs.attr [] [])) (by decide) rfl⟩

theorem stalenessCheck_status (cfg : Config) (env : StaleEnv) :
    ∀ r ∈ stalenessCheck cfg env,
      r.status = Status.ok ∨ r.status = Status.warn := by
  intro r hr
  simp only [stalenessCheck, List.mem_append] at hr
  rcases hr with ((h | h) | h) | h
  · cases hse : stashEntries env with
    | none => rw [hse] at h; simp at h
    | some entries =>
      rw [hse] at h
      rcases List.mem_append.mp h with h | h <;> split at h <;>
        simp only [List.mem_singleton] at h <;> rw [h]
      · exact Or.inr rfl
      · exact Or.inl rfl
      · exact Or.inr rfl
      · exact Or.inl rfl
  · split at h
    · split at h <;> simp only [List.mem_singleton] at h <;> rw [h]
      · exact Or.inr rfl
      · exact Or.inl rfl
    · simp at h
  · split at h
    · split at h <;> simp only [List.mem_singleton] at h <;> rw [h]
      · exact Or.inr rfl
      · exact Or.inl rfl
    · simp at h
  · split at h
    · simp only [List.mem_singleton] at h
      rw [h]
      exact Or.inl rfl
    · simp at h

theorem unpushedCheck_status (cfg : Config) (env : UnpushedEnv) :
    ∀ r ∈ unpushedCheck cfg env,
      r.status = Status.ok ∨ r.status = Status.fail := by
  intro r hr
  simp only [unpushedCheck] at hr
  split at hr
  · simp at hr
  · split at hr
    · simp only [List.mem_singleton] at hr
      rw [hr]
      exact Or.inl rfl
    · split at hr
      · simp only [List.mem_singleton] at hr
        rw [hr]
        exact Or.inl rfl
      · obtain ⟨branch, -, hb⟩ := List.mem_filterMap.mp hr
        unfold unpushedBranch at hb
        split at hb
        · exact absurd hb (by simp)
        · split at hb
          · exact absurd hb (by simp)
          · split at hb
            · simp only [Option.some.injEq] at hb
              rw [← hb]
              exact Or.inr rfl
            · exact absurd hb (by simp)

/-- C6 counterexample: the unpushed staleness check emits a FAIL result
(not WARN) for a branch with a commit older than the threshold, refuting
the claim that every staleness check is WARN-only. -/
theorem c6_staleness_counterexample :
    ¬ (∀ r ∈ unpushedCheck cfgUnp envUnp, r.status ≠ Status.fail) := by
  decide

/-- C6 (amended): the stash-age, stash-count, uncommitted and untracked
staleness checks only produce OK or WARN results; the unpushed check
produces OK or FAIL results; both rules' Fix implementations perform no
remediation and return their input unchanged. -/
theorem c6_staleness_warn :
    (∀ (cfg : Config) (env : StaleEnv), ∀ r ∈ stalenessCheck cfg env,
      r.status = Status.ok ∨ r.status = Status.warn) ∧
    (∀ rs : List Result, stalenessFixRun rs = rs) ∧
    (∀ rs : List Result, unpushedFixRun rs = rs) ∧
    (∀ (cfg : Config) (env : UnpushedEnv), ∀ r ∈ unpushedCheck cfg env,
      r.status = Status.ok ∨ r.status = Status.fail) :=
  ⟨stalenessCheck_status, fun _ => rfl, fun _ => rfl, unpushedCheck_status⟩

/-- C6 witness at a concrete no-stash repository. -/
theorem c6_staleness_warn_witness :
    resStashOk.status = Status.ok ∨ resStashOk.status = Status.warn :=
  c6_staleness_warn.1 cfgZero envNoStash resStashOk (by decide)

/-- C7 counterexample: with every threshold zero (unset) the stash-age
check still runs and flags a violation, refuting the claim that a zero or
unset threshold disables every staleness check. -/
theorem c7_threshold_counterexample :
    cfgZero.thresholds.stashMaxAge = 0 ∧
    ¬ (∀ r ∈ stalenessCheck cfgZero envStashOld,
        ¬ (r.name = nStashAge ∧ r.status = Status.warn)) := by
  exact ⟨rfl, by decide⟩

/-- C7 (amended): only the unpushed check is disabled by a zero threshold
(it runs nothing and reports nothing); the stash-age, stash-count,
uncommitted and untracked checks run regardless, treating a zero
threshold as a literal zero bound, so any stash entry older than time
zero, any stash entry at all, and any aged dirty working tree is
flagged. -/
theorem c7_threshold_zero :
    (∀ (cfg : Config) (env : UnpushedEnv),
      cfg.thresholds.unpushedMaxAge = 0 → unpushedCheck cfg env = []) ∧
    (∀ (cfg : Config) (env : StaleEnv) (entries : List (Int × Str)),
      cfg.thresholds.stashMaxAge = 0 →
      stashEntries env = some entries →
      entries.any (fun e => decide (env.now - e.1 > 0)) = true →
      ∃ r ∈ stalenessCheck cfg env,
        r.name = nStashAge ∧ r.status = Status.warn) ∧
    (∀ (cfg : Config) (env : StaleEnv) (entries : List (Int × Str)),
      cfg.thresholds.stashMaxCount = 0 →
      stashEntries env = some entries →
      entries ≠ [] →
      ∃ r ∈ stalenessCheck cfg env,
        r.name = nStashCount ∧ r.status = Status.warn) ∧
    (∀ (cfg : Config) (env : StaleEnv),
      cfg.thresholds.uncommittedMaxAge = 0 →
      uncommittedAge env > 0 →
      ((splitOnChar '\n' env.porcelain).filter
          (fun l => decide (l ≠ []))).filter
        (fun l => ! sUntrackedPfx.isPrefixOf l) ≠ [] →
      ∃ r ∈ stalenessCheck cfg env,
        r.name = nUncommitted ∧ r.status = Status.warn) ∧
    (∀ (cfg : Config) (env : StaleEnv),
      cfg.thresholds.uncommittedMaxAge = 0 →
      uncommittedAge env > 0 →
      ((splitOnChar '\n' env.porcelain).filter
          (fun l => decide (l ≠ []))).filter
        (fun l => sUntrackedPfx.isPrefixOf l) ≠ [] →
      ∃ r ∈ stalenessCheck cfg env,
        r.name = nUntracked ∧ r.status = Status.warn) := by
  refine ⟨?_, ?_, ?_, ?_, ?_⟩
  · intro cfg env h
    unfold unpushedCheck
    rw [if_pos h]
  · intro cfg env entries h0 hse hany
    obtain ⟨e, he, hp⟩ := List.any_eq_true.mp hany
    have hmem : e ∈ entries.filter (fun x =>
        decide (env.now - x.1 > cfg.thresholds.stashMaxAge)) := by
      refine List.mem_filter.mpr ⟨he, ?_⟩
      rw [h0]
      exact hp
    have hlen : 0 < ((entries.filter (fun x =>
        decide (env.now - x.1 > cfg.thresholds.stashMaxAge))).map
          (fun x => x.2)).length := by
      rw [List.length_map]
      exact List.length_pos.mpr (List.ne_nil_of_mem hmem)
    have hmem2 : (⟨nStashAge, Status.warn,
        natToStr ((entries.filter (fun x =>
            decide (env.now - x.1 > cfg.thresholds.stashMaxAge))).map
              (fun x => x.2)).length ++
          " stash entries older than ".data ++
          formatDuration cfg.thresholds.stashMaxAge,
        (entries.filter (fun x =>
          decide (env.now - x.1 > cfg.thresholds.stashMaxAge))).map
            (fun x => x.2), false⟩ : Result) ∈ stalenessCheck cfg env := by
      simp only [stalenessCheck]
      refine List.mem_append.mpr (Or.inl ?_)
      refine List.mem_append.mpr (Or.inl ?_)
      refine List.mem_append.mpr (Or.inl ?_)
      simp only [hse]
      refine List.mem_append.mpr (Or.inl ?_)
      rw [if_pos hlen]
      exact List.mem_singleton.mpr rfl
    exact ⟨_, hmem2, rfl, rfl⟩
  · intro cfg env entries h0 hse hne
    have hcnt : (entries.length : Int) > cfg.thresholds.stashMaxCount := by
      rw [h0]
      exact_mod_cast Nat.pos_of_ne_zero
        (fun hc => hne (List.eq_nil_of_length_eq_zero hc))
    have hmem2 : (⟨nStashCount, Status.warn,
        natToStr entries.length ++ " entries (max ".data ++
          intToStr cfg.thresholds.stashMaxCount ++ [')'],
        entries.map (fun e => e.2), false⟩ : Result) ∈
          stalenessCheck cfg env := by
      simp only [stalenessCheck]
      refine List.mem_append.mpr (Or.inl ?_)
      refine List.mem_append.mpr (Or.inl ?_)
      refine List.mem_append.mpr (Or.inl ?_)
      simp only [hse]
      refine List.mem_append.mpr (Or.inr ?_)
      rw [if_pos hcnt]
      exact List.mem_singleton.mpr rfl
    exact ⟨_, hmem2, rfl, rfl⟩
  · intro cfg env h0 hage hlines
    have hstale : decide (uncommittedAge env >
        cfg.thresholds.uncommittedMaxAge) = true := by
      rw [h0]
      exact decide_eq_true hage
    have hmem2 : (⟨nUncommitted, Status.warn,
        "uncommitted changes for ".data ++
          formatDuration (uncommittedAge env) ++ " (max ".data ++
          formatDuration cfg.thresholds.uncommittedMaxAge ++ [')'],
        ((splitOnChar '\n' env.porcelain).filter
            (fun l => decide (l ≠ []))).filter
          (fun l => ! sUntrackedPfx.isPrefixOf l), false⟩ : Result) ∈
          stalenessCheck cfg env := by
      simp only [stalenessCheck]
      refine List.mem_append.mpr (Or.inl ?_)
      refine List.mem_append.mpr (Or.inl ?_)
      refine List.mem_append.mpr (Or.inr ?_)
      rw [if_pos hlines, if_pos hstale]
      exact List.mem_singleton.mpr rfl
    exact ⟨_, hmem2, rfl, rfl⟩
  · intro cfg env h0 hage hlines
    have hstale : decide (uncommittedAge env >
        cfg.thresholds.uncommittedMaxAge) = true := by
      rw [h0]
      exact decide_eq_true hage
    have hmem2 : (⟨nUntracked, Status.warn,
        natToStr (((splitOnChar '\n' env.porcelain).filter
            (fun l => decide (l ≠ []))).filter
          (fun l => sUntrackedPfx.isPrefixOf l)).length ++
          " untracked files for ".data ++
          formatDuration (uncommittedAge env) ++ " (max ".data ++
          formatDuration cfg.thresholds.uncommittedMaxAge ++ [')'],
        ((splitOnChar '\n' env.porcelain).filter
            (fun l => decide (l ≠ []))).filter
          (fun l => sUntrackedPfx.isPrefixOf l), false⟩ : Result) ∈
          stalenessCheck cfg env := by
      simp only [stalenessCheck]
      refine List.mem_append.mpr (Or.inl ?_)
      refine List.mem_append.mpr (Or.inr ?_)
      rw [if_pos hlines, if_pos hstale]
      exact List.mem_singleton.mpr rfl
    exact ⟨_, hmem2, rfl, rfl⟩

/-- C7 witness: a zero unpushed threshold produces no unpushed results,
and with every threshold zero the concrete stash state is flagged by the
stash-count check. -/
theorem c7_threshold_zero_witness :
    unpushedCheck cfgZero envUnp = [] ∧
    ∃ r ∈ stalenessCheck cfgZero envStashOld,
      r.name = nStashCount ∧ r.status = Status.warn :=
  ⟨c7_threshold_zero.1 cfgZero envUnp rfl,
   c7_threshold_zero.2.2.1 cfgZero envStashOld
     [((0 : Int), "entry one".data)] rfl (by decide) (by decide)⟩

theorem name_not_stash {r : Result}
    (hn : r.name = nUncommitted ∨ r.name = nUntracked)
    (hname : r.name = nStashAge ∨ r.name = nStashCount) : False := by
  rcases hn with hn | hn <;> rcases hname with h1 | h1 <;> rw [hn] at h1 <;>
    exact absurd h1 (by decide)

/-- C8 counterexample: with no stash entries the staleness rule returns
OK placeholder results, not an empty list, refuting the claim that a
rule with no data returns an empty result list. -/
theorem c8_absence_counterexample :
    stashEntries envNoStash = some [] ∧
    stalenessCheck cfgZero envNoStash ≠ [] := by
  exact ⟨by decide, by decide⟩

/-- C8 (amended): fewer than two remotes silences the remote rule and a
missing .gitmodules silences the submodule rule (empty result list, no
error); the staleness rule with no stash entries still emits its stash
results, but only with status OK. -/
theorem c8_expected_absence :
    (∀ st : RepoSt, st.remotes.length < 2 → remoteCheck st = []) ∧
    (∀ env : SubEnv, env.hasGitmodules = false → submoduleCheck env = []) ∧
    (∀ (cfg : Config) (env : StaleEnv),
      stashEntries env = some [] → 0 ≤ cfg.thresholds.stashMaxCount →
      ∀ r ∈ stalenessCheck cfg env,
        (r.name = nStashAge ∨ r.name = nStashCount) →
        r.status = Status.ok) := by
  refine ⟨?_, ?_, ?_⟩
  · intro st h
    unfold remoteCheck
    rw [if_pos h]
  · intro env h
    unfold submoduleCheck
    rw [if_pos (by simp [h])]
  · intro cfg env hse hge r hr hname
    simp only [stalenessCheck, List.mem_append] at hr
    rcases hr with ((h | h) | h) | h
    · simp only [hse] at h
      simp only [List.filter_nil, List.map_nil, List.length_nil,
        List.length_map, gt_iff_lt, lt_irrefl, if_false] at h
      rcases List.mem_append.mp h with h | h
      · simp only [List.mem_singleton] at h
        rw [h]
      · split at h
        · exact (show False by omega).elim
        · simp only [List.mem_singleton] at h
          rw [h]
    · split at h
      · split at h <;> simp only [List.mem_singleton] at h
        · exact (name_not_stash (Or.inl (by rw [h])) hname).elim
        · exact (name_not_stash (Or.inl (by rw [h])) hname).elim
      · simp at h
    · split at h
      · split at h <;> simp only [List.mem_singleton] at h
        · exact (name_not_stash (Or.inr (by rw [h])) hname).elim
        · exact (name_not_stash (Or.inr (by rw [h])) hname).elim
      · simp at h
    · split at h
      · simp only [List.mem_singleton] at h
        exact (name_not_stash (Or.inl (by rw [h])) hname).elim
      · simp at h

/-- C8 witness: one remote silences the remote rule; no .gitmodules
silences the submodule rule. -/
theorem c8_expected_absence_witness :
    remoteCheck stRem1 = [] ∧ submoduleCheck subNoMod = [] :=
  ⟨c8_expected_absence.1 stRem1 (by decide),
   c8_expected_absence.2.1 subNoMod rfl⟩

end GitLint
